import Mathlib

/-!
Verification of the generation/validation subsystem of the ai-testmanager-ui
backend (`backend/app`), shallowly embedded in Lean 4.

Conventions used throughout:
* the relational store is modelled as explicit lists of rows; a SQLAlchemy
  `query(...).filter(id == x).first()` becomes `List.find?`;
* a Python function that can `raise` is modelled as returning
  `Except String α` together with the (possibly unchanged) store, so that
  "no row persisted on failure" is statable;
* DB-generated primary keys are passed in as explicit parameters;
* Python machine integers are `Int` (no overflow is possible at these sizes),
  Python strings are `String` / `List Char`.
-/

/-! ## Data model: steps and fixtures (backend/app/models, backend/app/schemas) -/

/-- Row of the `fixtures` table (the columns used by step validation). -/
structure FixtureRec where
  id : String
  name : String
  type : String
  deriving Repr, DecidableEq

/-- Payload of `StepCreate` (backend/app/schemas/step.py). -/
structure StepCreate where
  test_case_id : Option String
  action : Option String
  data : Option String
  expected : Option String
  playwright_script : Option String
  order : Int
  disabled : Bool
  referenced_fixture_id : Option String
  created_by : Option String
  deriving Repr, DecidableEq

/-- Row of the `steps` table (backend/app/models/step.py). -/
structure StepRec where
  id : String
  test_case_id : Option String
  action : Option String
  data : Option String
  expected : Option String
  playwright_script : Option String
  order : Int
  disabled : Bool
  referenced_fixture_id : Option String
  referenced_fixture_type : Option String
  created_by : Option String
  deriving Repr, DecidableEq

/-- The slice of the database used by `crud/step.py`. -/
structure StepDB where
  fixtures : List FixtureRec
  steps : List StepRec
  deriving Repr, DecidableEq

/-- Python truthiness test `if not action` for an `Optional[str]`:
`None` and the empty string are blank. -/
def optBlank : Option String → Bool
  | none => true
  | some s => s.isEmpty

/-- Second half of `create_step` (crud/step.py lines 101-145): the fixture is
looked up a second time, `referenced_fixture_type` is cached from it and a
blank `action` defaults to the fixture's name; then the row is inserted and
committed. `newId` is the DB-generated primary key. -/
def createStepInsert (db : StepDB) (newId : String) (step : StepCreate) :
    Except String StepRec × StepDB :=
  let actRft : Option String × Option String :=
    match step.referenced_fixture_id with
    | some fid =>
      match db.fixtures.find? (fun f => f.id == fid) with
      | some fx => (if optBlank step.action then some fx.name else step.action, some fx.type)
      | none => (step.action, none)
    | none => (step.action, none)
  let s : StepRec :=
    { id := newId
      test_case_id := step.test_case_id
      action := actRft.1
      data := step.data
      expected := step.expected
      playwright_script := step.playwright_script
      order := step.order
      disabled := step.disabled
      referenced_fixture_id := step.referenced_fixture_id
      referenced_fixture_type := actRft.2
      created_by := step.created_by }
  (.ok s, { db with steps := db.steps ++ [s] })

/-- `create_step` (crud/step.py lines 72-145).  Validation of the fixture-call
rules happens before anything is added to the session, so on every error the
store is returned unchanged. -/
def create_step (db : StepDB) (newId : String) (step : StepCreate) :
    Except String StepRec × StepDB :=
  match step.referenced_fixture_id with
  | some fid =>
    match db.fixtures.find? (fun f => f.id == fid) with
    | none => (.error ("Fixture with id " ++ fid ++ " not found"), db)
    | some fixture =>
      if fixture.type == "extend" && !(step.order == 1) then
        (.error "Extend fixtures can only be called at step 1 (order = 1)", db)
      else if fixture.type == "inline" && step.order == 1 then
        (.error "Inline fixtures cannot be called at step 1 (order = 1)", db)
      else createStepInsert db newId step
  | none => createStepInsert db newId step

/-- Payload of `StepUpdate` (backend/app/schemas/step.py); only the fields
relevant to fixture-call validation are modelled.  A `none` field means the
field is not part of the update (`exclude_unset`). -/
structure StepUpd where
  action : Option String
  order : Option Int
  referenced_fixture_id : Option String
  referenced_fixture_type : Option String
  deriving Repr, DecidableEq

/-- The `setattr` loop of `update_step`: every field present in the update is
written onto the persisted row, which is then committed in place. -/
def applyStepUpdate (db : StepDB) (step_id : String) (dbStep : StepRec) (upd : StepUpd) :
    Except String (Option StepRec) × StepDB :=
  let s : StepRec :=
    { dbStep with
      action := match upd.action with | some a => some a | none => dbStep.action
      order := upd.order.getD dbStep.order
      referenced_fixture_id :=
        match upd.referenced_fixture_id with
        | some f => some f
        | none => dbStep.referenced_fixture_id
      referenced_fixture_type :=
        match upd.referenced_fixture_type with
        | some t => some t
        | none => dbStep.referenced_fixture_type }
  (.ok (some s), { db with steps := db.steps.map (fun x => if x.id == step_id then s else x) })

/-- `update_step` (crud/step.py lines 148-174).  When the update carries a
`referenced_fixture_id`, the extend/inline rule is checked against
`step.order if step.order is not None else db_step.order`, and on success
`referenced_fixture_type` is overwritten with the looked-up fixture's type
before the update is applied. -/
def update_step (db : StepDB) (step_id : String) (upd : StepUpd) :
    Except String (Option StepRec) × StepDB :=
  match db.steps.find? (fun s => s.id == step_id) with
  | none => (.ok none, db)
  | some dbStep =>
    match upd.referenced_fixture_id with
    | some fid =>
      match db.fixtures.find? (fun f => f.id == fid) with
      | none => (.error ("Fixture with id " ++ fid ++ " not found"), db)
      | some fixture =>
        let order := upd.order.getD dbStep.order
        if fixture.type == "extend" && !(order == 1) then
          (.error "Extend fixtures can only be called at step 1 (order = 1)", db)
        else if fixture.type == "inline" && order == 1 then
          (.error "Inline fixtures cannot be called at step 1 (order = 1)", db)
        else
          applyStepUpdate db step_id dbStep { upd with referenced_fixture_type := some fixture.type }
    | none => applyStepUpdate db step_id dbStep upd

/-! ## Theorems for claims C1 and C10 -/

/-- Claim C1: `create_step` fails (persisting nothing) when the referenced
fixture is missing, when an `extend` fixture is called at an order other
than 1 (message "Extend fixtures can only be called at step 1 (order = 1)"),
and when an `inline` fixture is called at order 1; on success the fixture's
type is cached onto `referenced_fixture_type` and a blank action defaults to
the fixture's name; a step with no `referenced_fixture_id` is created with no
ordering constraint. -/
theorem create_step_validation_spec (db : StepDB) (newId : String) (st : StepCreate) :
    (∀ fid, st.referenced_fixture_id = some fid →
      db.fixtures.find? (fun f => f.id == fid) = none →
      create_step db newId st = (.error ("Fixture with id " ++ fid ++ " not found"), db)) ∧
    (∀ fid fx, st.referenced_fixture_id = some fid →
      db.fixtures.find? (fun f => f.id == fid) = some fx →
      fx.type = "extend" → st.order ≠ 1 →
      create_step db newId st =
        (.error ("Extend fixtures can only be called at step 1" ++ " (order = 1)"), db)) ∧
    (∀ fid fx, st.referenced_fixture_id = some fid →
      db.fixtures.find? (fun f => f.id == fid) = some fx →
      fx.type = "inline" → st.order = 1 →
      create_step db newId st =
        (.error ("Inline fixtures cannot be called at step 1" ++ " (order = 1)"), db)) ∧
    (∀ fid fx, st.referenced_fixture_id = some fid →
      db.fixtures.find? (fun f => f.id == fid) = some fx →
      ¬(fx.type = "extend" ∧ st.order ≠ 1) → ¬(fx.type = "inline" ∧ st.order = 1) →
      ∃ s, create_step db newId st = (.ok s, { db with steps := db.steps ++ [s] }) ∧
        s.referenced_fixture_type = some fx.type ∧
        (optBlank st.action = true → s.action = some fx.name) ∧
        (optBlank st.action = false → s.action = st.action) ∧
        s.order = st.order) ∧
    (st.referenced_fixture_id = none →
      ∃ s, create_step db newId st = (.ok s, { db with steps := db.steps ++ [s] }) ∧
        s.order = st.order ∧ s.action = st.action ∧ s.referenced_fixture_type = none) := by
  refine ⟨?_, ?_, ?_, ?_, ?_⟩
  · intro fid hfid hnone
    simp [create_step, hfid, hnone]
  · intro fid fx hfid hfx htype horder
    simp [create_step, hfid, hfx, htype, horder]
  · intro fid fx hfid hfx htype horder
    simp [create_step, hfid, hfx, htype, horder]
  · intro fid fx hfid hfx hne hni
    have hcond1 : (fx.type == "extend" && !(st.order == 1)) = false := by
      rcases Decidable.em (fx.type = "extend") with h | h
      · have : st.order = 1 := by
          by_contra hc
          exact hne ⟨h, hc⟩
        simp [this]
      · simp [h]
    have hcond2 : (fx.type == "inline" && st.order == 1) = false := by
      rcases Decidable.em (fx.type = "inline") with h | h
      · have : st.order ≠ 1 := by
          intro hc
          exact hni ⟨h, hc⟩
        simp [h, this]
      · simp [h]
    refine ⟨{ id := newId, test_case_id := st.test_case_id,
              action := if optBlank st.action then some fx.name else st.action,
              data := st.data, expected := st.expected,
              playwright_script := st.playwright_script, order := st.order,
              disabled := st.disabled, referenced_fixture_id := st.referenced_fixture_id,
              referenced_fixture_type := some fx.type, created_by := st.created_by },
            ?_, rfl, ?_, ?_, rfl⟩
    · simp [create_step, hfid, hfx, hcond1, hcond2, createStepInsert]
    · intro hb
      simp [hb]
    · intro hb
      simp [hb]
  · intro hnone
    refine ⟨{ id := newId, test_case_id := st.test_case_id, action := st.action,
              data := st.data, expected := st.expected,
              playwright_script := st.playwright_script, order := st.order,
              disabled := st.disabled, referenced_fixture_id := st.referenced_fixture_id,
              referenced_fixture_type := none, created_by := st.created_by },
            ?_, rfl, rfl, rfl⟩
    simp [create_step, hnone, createStepInsert]

/-- Witness for `create_step_validation_spec` at a concrete store: an `extend`
fixture referenced at order 2 is rejected, an `inline` one referenced at
order 2 succeeds with the type cached and the blank action defaulted. -/
theorem create_step_validation_spec_witness :
    (create_step ⟨[⟨"f1", "Login As Admin", "extend"⟩], []⟩ "s1"
        ⟨some "tc", none, none, none, none, 2, false, some "f1", none⟩ =
      (.error ("Extend fixtures can only be called at step 1" ++ " (order = 1)"),
        ⟨[⟨"f1", "Login As Admin", "extend"⟩], []⟩)) ∧
    (∃ s, create_step ⟨[⟨"f2", "Check Status", "inline"⟩], []⟩ "s2"
        ⟨some "tc", none, none, none, none, 2, false, some "f2", none⟩ =
        (.ok s, { fixtures := [⟨"f2", "Check Status", "inline"⟩],
                  steps := [] ++ [s] }) ∧
      s.referenced_fixture_type = some "inline" ∧ s.action = some "Check Status") := by
  constructor
  · exact (create_step_validation_spec ⟨[⟨"f1", "Login As Admin", "extend"⟩], []⟩ "s1"
      ⟨some "tc", none, none, none, none, 2, false, some "f1", none⟩).2.1
      "f1" ⟨"f1", "Login As Admin", "extend"⟩ rfl (by decide) rfl (by decide)
  · obtain ⟨s, h1, h2, h3, _, _⟩ :=
      ((create_step_validation_spec ⟨[⟨"f2", "Check Status", "inline"⟩], []⟩ "s2"
        ⟨some "tc", none, none, none, none, 2, false, some "f2", none⟩).2.2.2.1)
      "f2" ⟨"f2", "Check Status", "inline"⟩ rfl (by decide) (by decide) (by decide)
    exact ⟨s, h1, h2, h3 (by decide)⟩

/-- Claim C10: on `update_step`, when the update sets `referenced_fixture_id`
but omits `order`, the extend/inline rule is evaluated against the step's
currently persisted order; when validation passes, `referenced_fixture_type`
is set to the looked-up fixture's type before the update is applied. -/
theorem update_step_persisted_order_spec (db : StepDB) (sid fid : String)
    (upd : StepUpd) (st : StepRec) (fx : FixtureRec)
    (hset : upd.referenced_fixture_id = some fid) (homit : upd.order = none)
    (hst : db.steps.find? (fun s => s.id == sid) = some st)
    (hfx : db.fixtures.find? (fun f => f.id == fid) = some fx) :
    (fx.type = "extend" → st.order ≠ 1 →
      update_step db sid upd =
        (.error ("Extend fixtures can only be called at step 1" ++ " (order = 1)"), db)) ∧
    (fx.type = "inline" → st.order = 1 →
      update_step db sid upd =
        (.error ("Inline fixtures cannot be called at step 1" ++ " (order = 1)"), db)) ∧
    (¬(fx.type = "extend" ∧ st.order ≠ 1) → ¬(fx.type = "inline" ∧ st.order = 1) →
      ∃ s, update_step db sid upd =
          (.ok (some s), { db with steps := db.steps.map (fun x => if x.id == sid then s else x) }) ∧
        s.referenced_fixture_type = some fx.type ∧
        s.order = st.order ∧
        s.referenced_fixture_id = some fid) := by
  refine ⟨?_, ?_, ?_⟩
  · intro htype horder
    simp [update_step, hst, hset, hfx, homit, htype, horder]
  · intro htype horder
    simp [update_step, hst, hset, hfx, homit, htype, horder]
  · intro hne hni
    have hcond1 : (fx.type == "extend" && !(st.order == 1)) = false := by
      rcases Decidable.em (fx.type = "extend") with h | h
      · have : st.order = 1 := by
          by_contra hc
          exact hne ⟨h, hc⟩
        simp [this]
      · simp [h]
    have hcond2 : (fx.type == "inline" && st.order == 1) = false := by
      rcases Decidable.em (fx.type = "inline") with h | h
      · have : st.order ≠ 1 := by
          intro hc
          exact hni ⟨h, hc⟩
        simp [h, this]
      · simp [h]
    refine ⟨{ st with
              action := match upd.action with | some a => some a | none => st.action
              order := st.order
              referenced_fixture_id := some fid
              referenced_fixture_type := some fx.type },
            ?_, rfl, rfl, rfl⟩
    simp [update_step, hst, hset, hfx, homit, hcond1, hcond2, applyStepUpdate]

/-- Witness for `update_step_persisted_order_spec`: re-binding an `extend`
fixture onto a step persisted at order 2 fails even though the update carries
no order, and re-binding an `inline` fixture onto that step succeeds with the
type cached. -/
theorem update_step_persisted_order_spec_witness :
    (update_step
        ⟨[⟨"f1", "Login", "extend"⟩],
         [{ id := "s1", test_case_id := some "tc", action := some "a", data := none,
            expected := none, playwright_script := none, order := 2, disabled := false,
            referenced_fixture_id := none, referenced_fixture_type := none,
            created_by := none }]⟩
        "s1" ⟨none, none, some "f1", none⟩).1 =
      .error ("Extend fixtures can only be called at step 1" ++ " (order = 1)") ∧
    (∃ s, (update_step
        ⟨[⟨"f2", "Check", "inline"⟩],
         [{ id := "s1", test_case_id := some "tc", action := some "a", data := none,
            expected := none, playwright_script := none, order := 2, disabled := false,
            referenced_fixture_id := none, referenced_fixture_type := none,
            created_by := none }]⟩
        "s1" ⟨none, none, some "f2", none⟩).1 = .ok (some s) ∧
      s.referenced_fixture_type = some "inline") := by
  constructor
  · have h := (update_step_persisted_order_spec
      ⟨[⟨"f1", "Login", "extend"⟩],
       [{ id := "s1", test_case_id := some "tc", action := some "a", data := none,
          expected := none, playwright_script := none, order := 2, disabled := false,
          referenced_fixture_id := none, referenced_fixture_type := none,
          created_by := none }]⟩
      "s1" "f1" ⟨none, none, some "f1", none⟩
      { id := "s1", test_case_id := some "tc", action := some "a", data := none,
        expected := none, playwright_script := none, order := 2, disabled := false,
        referenced_fixture_id := none, referenced_fixture_type := none,
        created_by := none }
      ⟨"f1", "Login", "extend"⟩ rfl rfl (by decide) (by decide)).1 rfl (by decide)
    rw [h]
  · obtain ⟨s, hs, ht, _, _⟩ := (update_step_persisted_order_spec
      ⟨[⟨"f2", "Check", "inline"⟩],
       [{ id := "s1", test_case_id := some "tc", action := some "a", data := none,
          expected := none, playwright_script := none, order := 2, disabled := false,
          referenced_fixture_id := none, referenced_fixture_type := none,
          created_by := none }]⟩
      "s1" "f2" ⟨none, none, some "f2", none⟩
      { id := "s1", test_case_id := some "tc", action := some "a", data := none,
        expected := none, playwright_script := none, order := 2, disabled := false,
        referenced_fixture_id := none, referenced_fixture_type := none,
        created_by := none }
      ⟨"f2", "Check", "inline"⟩ rfl rfl (by decide) (by decide)).2.2
      (by decide) (by decide)
    exact ⟨s, by rw [hs], ht⟩

/-! ## Sync orchestration: mutations never rolled back by generation failures
(backend/app/api/endpoints/steps.py, backend/app/crud/fixture.py) -/

/-- Outcome of a downstream generator call, seen from the mutation handler:
the call can raise, report failure, or succeed with a payload. -/
inductive GenOutcome (α : Type) where
  | raised (msg : String)
  | failed (err : String)
  | ok (value : α)
  deriving Repr, DecidableEq

/-- `create_test_case_step` (endpoints/steps.py lines 36-83): the step is
created through `crud_step.create_step`, then the test-case file is
regenerated inside a `try`/`except` whose handler only logs.  The regeneration
outcome is passed in as `regen`. -/
def create_test_case_step (db : StepDB) (newId tcid user : String) (step : StepCreate)
    (regen : GenOutcome Unit) : Except String StepRec × StepDB :=
  let stepData := { step with test_case_id := some tcid, created_by := some user }
  match create_step db newId stepData with
  | (.error e, db') => (.error e, db')
  | (.ok created, db') =>
    match regen with
    | .raised _ => (.ok created, db')
    | .failed _ => (.ok created, db')
    | .ok _ => (.ok created, db')

/-- Row of the `fixtures` table with the generated-file columns
(backend/app/models/fixture.py). -/
structure FixtureRow where
  id : String
  name : String
  project_id : String
  type : String
  playwright_script : Option String
  created_by : Option String
  filename : Option String
  export_name : Option String
  fixture_file_path : Option String
  deriving Repr, DecidableEq

/-- Row of the `projects` table (the columns used by `create_fixture`). -/
structure ProjectRow where
  id : String
  name : String
  deriving Repr, DecidableEq

/-- The slice of the database used by `crud/fixture.py`. -/
structure FixtureDB where
  projects : List ProjectRow
  fixtures : List FixtureRow
  deriving Repr, DecidableEq

/-- Payload of `FixtureCreate` (backend/app/schemas/fixture.py). -/
structure FixtureCreate where
  name : String
  project_id : String
  type : String
  playwright_script : Option String
  created_by : Option String
  deriving Repr, DecidableEq

/-- Result payload of `PlaywrightFixtureGenerator.generate_fixture`:
content, export name and filename. -/
structure FixtureGenOut where
  content : String
  export_name : String
  filename : String
  deriving Repr, DecidableEq

/-- `create_fixture` (crud/fixture.py lines 167-244).  The row is committed
first; file generation and save run afterwards inside a `try` block whose
`except` handler only logs ("Don't fail the database creation if file
generation fails").  `gen` is the generator outcome, `save` the file-save
outcome (carrying the saved path), `readBack` the content read back from the
written file (`None` when unreadable). -/
def create_fixture (db : FixtureDB) (newId : String) (fx : FixtureCreate)
    (gen : GenOutcome FixtureGenOut) (save : GenOutcome String)
    (readBack : Option String) : Except String FixtureRow × FixtureDB :=
  match db.projects.find? (fun p => p.id == fx.project_id) with
  | none => (.error "Project not found", db)
  | some _ =>
    let row : FixtureRow :=
      { id := newId, name := fx.name, project_id := fx.project_id, type := fx.type
        playwright_script := fx.playwright_script, created_by := fx.created_by
        filename := none, export_name := none, fixture_file_path := none }
    let db1 := { db with fixtures := db.fixtures ++ [row] }
    match gen with
    | .raised _ => (.ok row, db1)
    | .failed _ => (.ok row, db1)
    | .ok out =>
      match save with
      | .raised _ => (.ok row, db1)
      | .failed _ => (.ok row, db1)
      | .ok path =>
        let row' := { row with
          filename := some out.filename
          export_name := some out.export_name
          fixture_file_path := some path
          playwright_script :=
            match readBack with
            | some c => some c
            | none => row.playwright_script }
        (.ok row', { db with fixtures := db.fixtures ++ [row'] })

/-- Claim C2: a failure of the post-mutation generation step never causes the
triggering mutation to fail or be rolled back: `create_test_case_step` returns
the created step for every regeneration outcome, and `create_fixture` returns
the already-persisted fixture row whenever generation raises or fails, save
raises or fails, or the file cannot be read back. -/
theorem generation_failure_never_rolls_back (db : StepDB) (fdb : FixtureDB)
    (newId tcid user : String) (step : StepCreate) (fx : FixtureCreate) :
    (∀ s db', create_step db newId { step with test_case_id := some tcid, created_by := some user } = (.ok s, db') →
      ∀ regen, create_test_case_step db newId tcid user step regen = (.ok s, db')) ∧
    (∀ p, fdb.projects.find? (fun q => q.id == fx.project_id) = some p →
      ∀ gen save readBack, ∃ r,
        create_fixture fdb newId fx gen save readBack =
          (.ok r, { fdb with fixtures := fdb.fixtures ++ [r] }) ∧
        r.name = fx.name ∧ r.type = fx.type ∧ r.project_id = fx.project_id) := by
  constructor
  · intro s db' hok regen
    cases regen <;> simp [create_test_case_step, hok]
  · intro p hp gen save readBack
    cases gen with
    | raised m =>
      refine ⟨{ id := newId, name := fx.name, project_id := fx.project_id, type := fx.type,
                playwright_script := fx.playwright_script, created_by := fx.created_by,
                filename := none, export_name := none, fixture_file_path := none },
              ?_, rfl, rfl, rfl⟩
      simp [create_fixture, hp]
    | failed m =>
      refine ⟨{ id := newId, name := fx.name, project_id := fx.project_id, type := fx.type,
                playwright_script := fx.playwright_script, created_by := fx.created_by,
                filename := none, export_name := none, fixture_file_path := none },
              ?_, rfl, rfl, rfl⟩
      simp [create_fixture, hp]
    | ok out =>
      cases save with
      | raised m =>
        refine ⟨{ id := newId, name := fx.name, project_id := fx.project_id, type := fx.type,
                  playwright_script := fx.playwright_script, created_by := fx.created_by,
                  filename := none, export_name := none, fixture_file_path := none },
                ?_, rfl, rfl, rfl⟩
        simp [create_fixture, hp]
      | failed m =>
        refine ⟨{ id := newId, name := fx.name, project_id := fx.project_id, type := fx.type,
                  playwright_script := fx.playwright_script, created_by := fx.created_by,
                  filename := none, export_name := none, fixture_file_path := none },
                ?_, rfl, rfl, rfl⟩
        simp [create_fixture, hp]
      | ok path =>
        refine ⟨{ id := newId, name := fx.name, project_id := fx.project_id, type := fx.type,
                  playwright_script := match readBack with | some c => some c | none => fx.playwright_script,
                  created_by := fx.created_by,
                  filename := some out.filename, export_name := some out.export_name,
                  fixture_file_path := some path },
                ?_, rfl, rfl, rfl⟩
        simp [create_fixture, hp]

/-- Witness for `generation_failure_never_rolls_back` at a concrete store:
a raised regeneration does not change the created step, and a raised
generation still returns the persisted fixture row. -/
theorem generation_failure_never_rolls_back_witness :
    (∀ regen, ∃ s db',
      create_test_case_step ⟨[], []⟩ "s1" "tc1" "u1"
        ⟨none, some "click", none, none, none, 3, false, none, none⟩ regen = (.ok s, db')) ∧
    (∃ r, create_fixture ⟨[⟨"p1", "Demo"⟩], []⟩ "f1"
        ⟨"Login", "p1", "extend", none, none⟩ (.raised "template error") (.failed "io") none =
      (.ok r, { projects := [⟨"p1", "Demo"⟩], fixtures := [] ++ [r] })) := by
  constructor
  · intro regen
    obtain ⟨a, b, hab⟩ : ∃ s db',
        create_step ⟨[], []⟩ "s1"
          ({ test_case_id := some "tc1", action := some "click", data := none, expected := none,
             playwright_script := none, order := 3, disabled := false,
             referenced_fixture_id := none, created_by := some "u1" } : StepCreate) = (.ok s, db') :=
      ⟨_, _, rfl⟩
    exact ⟨a, b,
      (generation_failure_never_rolls_back ⟨[], []⟩ ⟨[], []⟩ "s1" "tc1" "u1"
        ⟨none, some "click", none, none, none, 3, false, none, none⟩
        ⟨"Login", "p1", "extend", none, none⟩).1 a b hab regen⟩
  · obtain ⟨r, hr, _, _, _⟩ :=
      (generation_failure_never_rolls_back ⟨[], []⟩ ⟨[⟨"p1", "Demo"⟩], []⟩ "f1" "tc1" "u1"
        ⟨none, none, none, none, none, 1, false, none, none⟩
        ⟨"Login", "p1", "extend", none, none⟩).2
      ⟨"p1", "Demo"⟩ (by decide) (.raised "template error") (.failed "io") none
    exact ⟨r, hr⟩

/-! ## Saving a generated test case
(backend/app/services/playwright_test_case.py, `save_test_case_to_project`) -/

/-- The project filesystem, as a finite map from paths to file contents. -/
def FS := List (String × String)

/-- `Path.exists()`. -/
def fsExists (fs : FS) (p : String) : Bool :=
  (List.find? (fun e => e.1 == p) fs).isSome

/-- Content of the file at `p`, if any. -/
def fsLookup (fs : FS) (p : String) : Option String :=
  (List.find? (fun e => e.1 == p) fs).map (fun e => e.2)

/-- `open(p, 'w').write(c)`: create or overwrite the file at `p`. -/
def fsWrite (fs : FS) (p c : String) : FS :=
  (p, c) :: List.filter (fun e => !(e.1 == p)) fs

/-- `old.rename(new)`: move the file at `old` to `new` (callers guard on
existence; a missing source leaves the store unchanged here, the raising
variant is modelled by the caller's `renameRaises` flag). -/
def fsRename (fs : FS) (old new : String) : FS :=
  match fsLookup fs old with
  | none => fs
  | some c => fsWrite (List.filter (fun e => !(e.1 == old)) fs) new c

/-- `save_test_case_to_project` (playwright_test_case.py lines 498-655),
restricted to its file-handling core (lines 554-598): compute the target path
under `tests/`; if the record carries a stored file path that exists and
differs from the target, rename the old file to the target; if it exists and
coincides, overwrite in place; otherwise create a new file.  A raised rename
(`renameRaises`) falls back to writing a fresh file at the target.  Returns
`(success, relative file path)` and the new filesystem. -/
def save_test_case_to_project (fs : FS) (testsDir filename content : String)
    (storedPath : Option String) (renameRaises : Bool) : (Bool × String) × FS :=
  let target := testsDir ++ "/" ++ filename
  let result := (true, "tests/" ++ filename)
  match storedPath with
  | some old =>
    if fsExists fs old && !(old == target) then
      if renameRaises then (result, fsWrite fs target content)
      else (result, fsRename fs old target)
    else if fsExists fs old && old == target then (result, fsWrite fs target content)
    else (result, fsWrite fs target content)
  | none => (result, fsWrite fs target content)

/-- After renaming, the old path is gone and the target holds the moved
content. -/
theorem fsRename_moves (fs : FS) (old new : String) (c : String)
    (hc : fsLookup fs old = some c) (hne : old ≠ new) :
    fsLookup (fsRename fs old new) old = none ∧
    fsLookup (fsRename fs old new) new = some c := by
  have hfil : List.find? (fun e => e.1 == old)
      (List.filter (fun e => !(e.1 == new)) (List.filter (fun e => !(e.1 == old)) fs)) = none := by
    rw [List.find?_eq_none]
    intro x hx
    have hmem := (List.mem_filter.mp (List.mem_filter.mp hx).1).2
    simpa using hmem
  unfold fsRename
  rw [hc]
  unfold fsWrite fsLookup
  constructor
  · rw [List.find?_cons_of_neg _ (by simp [Ne.symm hne]), hfil]
    rfl
  · rw [List.find?_cons_of_pos _ (by simp)]
    rfl

/-- Claim C5: when saving a generated test case, a stored path differing from
the computed target is renamed onto the target (after a pure rename exactly
one of the two paths holds the file); a stored path equal to the target is
overwritten in place; with no stored path a new file is created; and a raised
rename falls back to writing a fresh file at the target instead of failing
the save. -/
theorem save_test_case_rename_spec (fs : FS) (testsDir filename content : String) :
    (∀ old c, fsLookup fs old = some c → old ≠ testsDir ++ "/" ++ filename →
      save_test_case_to_project fs testsDir filename content (some old) false =
        ((true, "tests/" ++ filename), fsRename fs old (testsDir ++ "/" ++ filename)) ∧
      fsLookup (fsRename fs old (testsDir ++ "/" ++ filename)) old = none ∧
      fsLookup (fsRename fs old (testsDir ++ "/" ++ filename)) (testsDir ++ "/" ++ filename) = some c) ∧
    (∀ old, fsExists fs old = true → old = testsDir ++ "/" ++ filename →
      save_test_case_to_project fs testsDir filename content (some old) false =
        ((true, "tests/" ++ filename), fsWrite fs (testsDir ++ "/" ++ filename) content)) ∧
    (save_test_case_to_project fs testsDir filename content none false =
      ((true, "tests/" ++ filename), fsWrite fs (testsDir ++ "/" ++ filename) content)) ∧
    (∀ old, save_test_case_to_project fs testsDir filename content (some old) true =
        ((true, "tests/" ++ filename), fsWrite fs (testsDir ++ "/" ++ filename) content) ∨
      save_test_case_to_project fs testsDir filename content (some old) true =
        ((true, "tests/" ++ filename), fsRename fs old (testsDir ++ "/" ++ filename))) ∧
    (∀ old raised, ((save_test_case_to_project fs testsDir filename content (some old) raised).1).1 = true) := by
  refine ⟨?_, ?_, ?_, ?_, ?_⟩
  · intro old c hc hne
    have hex : fsExists fs old = true := by
      simp only [fsExists, fsLookup] at *
      cases h : List.find? (fun e => e.1 == old) fs with
      | none => rw [h] at hc; simp at hc
      | some e => simp
    refine ⟨?_, (fsRename_moves fs old _ c hc hne).1, (fsRename_moves fs old _ c hc hne).2⟩
    simp [save_test_case_to_project, hex, hne]
  · intro old hex heq
    subst heq
    simp [save_test_case_to_project, hex]
  · simp [save_test_case_to_project]
  · intro old
    by_cases hex : fsExists fs old = true
    · by_cases heq : old = testsDir ++ "/" ++ filename
      · left; simp [save_test_case_to_project, hex, heq]
      · left; simp [save_test_case_to_project, hex, heq]
    · left
      simp only [Bool.not_eq_true] at hex
      simp [save_test_case_to_project, hex]
  · intro old raised
    by_cases hex : fsExists fs old = true
    · by_cases heq : old = testsDir ++ "/" ++ filename
      · cases raised <;> simp [save_test_case_to_project, hex, heq]
      · cases raised <;> simp [save_test_case_to_project, hex, heq]
    · simp only [Bool.not_eq_true] at hex
      cases raised <;> simp [save_test_case_to_project, hex]

/-- Witness for `save_test_case_rename_spec` on a one-file store: a pure
rename relocates `proj/tests/old-name.spec.ts` to `proj/tests/new-name.spec.ts`
leaving no file at the old path. -/
theorem save_test_case_rename_spec_witness :
    fsLookup (fsRename [("proj/tests/old-name.spec.ts", "spec body")]
        "proj/tests/old-name.spec.ts" ("proj/tests" ++ "/" ++ "new-name.spec.ts"))
      "proj/tests/old-name.spec.ts" = none ∧
    fsLookup (fsRename [("proj/tests/old-name.spec.ts", "spec body")]
        "proj/tests/old-name.spec.ts" ("proj/tests" ++ "/" ++ "new-name.spec.ts"))
      ("proj/tests" ++ "/" ++ "new-name.spec.ts") = some "spec body" := by
  have h := (save_test_case_rename_spec [("proj/tests/old-name.spec.ts", "spec body")]
    "proj/tests" "new-name.spec.ts" "new body").1
    "proj/tests/old-name.spec.ts" "spec body" (by decide) (by decide)
  exact ⟨h.2.1, h.2.2⟩

/-! ## Project settings: timeout unit conversion at write time
(backend/app/crud/project_setting.py).

`seconds = float(setting.value)` and `milliseconds = int(seconds * 1000)` are
modelled with IEEE-754 binary64 arithmetic carried out on exact integers: the
parsed numeral is rounded to the nearest binary64 value (ties to even, with
subnormals and overflow to infinity), the multiplication by 1000 rounds the
exact product again, and `int` truncates toward zero.  `float` accepts
optional surrounding whitespace, an optional sign, `inf`/`infinity`/`nan` in
any case, or a decimal numeral with optional fraction, exponent and single
underscores between digits (ASCII reading: Python first maps other Unicode
decimal digits and whitespace to ASCII).  `int(float('nan') * 1000)` raises
`ValueError`, which the `except (ValueError, TypeError)` handler catches
(the value is kept verbatim); `int(float('inf') * 1000)` raises
`OverflowError`, which that handler does not catch, so the whole write
raises with no row touched. -/

/-- A successfully parsed Python float literal: a finite decimal
`± mantissa · 10 ^ exp10`, a signed infinity, or NaN. -/
inductive PyFloatVal where
  | finite (neg : Bool) (mantissa : Nat) (exp10 : Int)
  | inf (neg : Bool)
  | nan
  deriving Repr, DecidableEq

/-- One digit-part of a Python numeric literal, `digit (_? digit)*`: single
underscores are allowed between digits.  Returns the accumulated value, the
number of digits consumed and the remaining input; consumption stops at a
stray underscore, leaving it in the remainder so that the surrounding parse
fails on leftover input. -/
def digitsU : List Char → Nat → Nat → Nat × Nat × List Char
  | [], acc, n => (acc, n, [])
  | c :: rest, acc, n =>
    if c.isDigit then digitsU rest (acc * 10 + (c.toNat - 48)) (n + 1)
    else if c = '_' then
      match rest with
      | d :: rest2 =>
        if d.isDigit then digitsU rest2 (acc * 10 + (d.toNat - 48)) (n + 1)
        else (acc, n, c :: rest)
      | [] => (acc, n, c :: rest)
    else (acc, n, c :: rest)

/-- The optional exponent suffix `(e|E) sign? digits` of a float literal.
`frac` is the number of fraction digits already read; the result is the
decimal exponent of the mantissa read as an integer.  `none` when the suffix
is malformed or input is left over. -/
def parseExp10 (frac : Nat) : List Char → Option Int
  | [] => some (-(frac : Int))
  | c :: rest =>
    if c = 'e' ∨ c = 'E' then
      let sr : Bool × List Char :=
        match rest with
        | '-' :: r2 => (true, r2)
        | '+' :: r2 => (false, r2)
        | r2 => (false, r2)
      match sr.2 with
      | d :: _ =>
        if d.isDigit then
          let t := digitsU sr.2 0 0
          if t.2.2 = [] then
            some ((if sr.1 then -(t.1 : Int) else (t.1 : Int)) - (frac : Int))
          else none
        else none
      | [] => none
    else none

/-- A decimal float literal after the sign: `digits [. digits] [exponent]`
with at least one mantissa digit. -/
def parseDecimal (neg : Bool) (u : List Char) : Option PyFloatVal :=
  let ipt :=
    match u with
    | c :: _ => if c.isDigit then digitsU u 0 0 else (0, 0, u)
    | [] => (0, 0, u)
  match ipt.2.2 with
  | '.' :: r2 =>
    let ft :=
      match r2 with
      | d :: _ => if d.isDigit then digitsU r2 0 0 else (0, 0, r2)
      | [] => (0, 0, r2)
    if ipt.2.1 + ft.2.1 = 0 then none
    else
      match parseExp10 ft.2.1 ft.2.2 with
      | some e10 => some (.finite neg (ipt.1 * 10 ^ ft.2.1 + ft.1) e10)
      | none => none
  | _ =>
    if ipt.2.1 = 0 then none
    else
      match parseExp10 0 ipt.2.2 with
      | some e10 => some (.finite neg ipt.1 e10)
      | none => none

/-- Python `\s` on ASCII: space, tab, newline, vertical tab, form feed,
carriage return — also the whitespace `float` strips around its argument. -/
def pyWs (c : Char) : Bool :=
  (9 ≤ c.toNat && c.toNat ≤ 13) || c.toNat == 32

/-- Python `float(value)` on strings: surrounding whitespace is stripped and
the optional sign is followed by `inf`/`infinity`/`nan` (any case) or a
decimal literal.  `none` models the `ValueError` raised on anything else. -/
def pyFloat? (s : String) : Option PyFloatVal :=
  let t := ((s.data.dropWhile pyWs).reverse.dropWhile pyWs).reverse
  let su : Bool × List Char :=
    match t with
    | '-' :: rest => (true, rest)
    | '+' :: rest => (false, rest)
    | rest => (false, rest)
  let low := su.2.map Char.toLower
  if low = ['i', 'n', 'f'] ∨ low = ['i', 'n', 'f', 'i', 'n', 'i', 't', 'y'] then
    some (.inf su.1)
  else if low = ['n', 'a', 'n'] then
    some .nan
  else
    match su.2 with
    | c :: _ => if c.isDigit ∨ c = '.' then parseDecimal su.1 su.2 else none
    | [] => none

/-- An IEEE-754 binary64 value: `± m · 2 ^ e` with `m < 2 ^ 53`, a signed
infinity, or NaN. -/
inductive F64 where
  | finite (neg : Bool) (m : Nat) (e : Int)
  | inf (neg : Bool)
  | nan
  deriving Repr, DecidableEq

/-- Floor base-2 logarithm, fuel-based so that it evaluates by kernel
reduction (`Nat.log2` recurses by well-founded recursion and does not). -/
def log2fuel : Nat → Nat → Nat
  | 0, _ => 0
  | fuel + 1, n => if 2 ≤ n then log2fuel fuel (n / 2) + 1 else 0

def nlog2 (n : Nat) : Nat := log2fuel n n

/-- The exact value `± a / b` (`b ≠ 0`) rounded to binary64 at
round-to-nearest, ties-to-even: the binade is located with `nlog2` (the
first scaled significand lies within a factor 2 of `[2 ^ 52, 2 ^ 53)`, so
one adjustment suffices), the scale is clamped to the subnormal grid
`2 ^ -1074`, the significand is rounded on the exact remainder, and results
at or beyond `2 ^ 1024` overflow to infinity. -/
def f64OfRat (neg : Bool) (a b : Nat) : F64 :=
  if a = 0 then .finite neg 0 0
  else
    let e0 : Int := (nlog2 a : Int) - (nlog2 b : Int) - 52
    let s0 := (a * 2 ^ (-e0).toNat) / (b * 2 ^ e0.toNat)
    let e1 : Int := if s0 < 2 ^ 52 then e0 - 1 else if 2 ^ 53 ≤ s0 then e0 + 1 else e0
    let e2 : Int := if e1 < -1074 then -1074 else e1
    let num := a * 2 ^ (-e2).toNat
    let den := b * 2 ^ e2.toNat
    let s := num / den
    let r := num - s * den
    let s' := if den < 2 * r ∨ (2 * r = den ∧ s % 2 = 1) then s + 1 else s
    if s' = 2 ^ 53 then
      if (971 : Int) < e2 + 1 then .inf neg else .finite neg (2 ^ 52) (e2 + 1)
    else
      if (971 : Int) < e2 then .inf neg else .finite neg s' e2

/-- The binary64 value of a parsed float literal: `float(value)` returns the
correctly rounded binary64 nearest to the exact decimal value. -/
def f64OfLit : PyFloatVal → F64
  | .finite neg m e10 =>
    if 0 ≤ e10 then f64OfRat neg (m * 10 ^ e10.toNat) 1
    else f64OfRat neg m (10 ^ (-e10).toNat)
  | .inf neg => .inf neg
  | .nan => .nan

/-- Binary64 multiplication `seconds * 1000`: the exact product rounded back
to binary64. -/
def f64Mul1000 : F64 → F64
  | .finite neg m e =>
    if 0 ≤ e then f64OfRat neg (1000 * m * 2 ^ e.toNat) 1
    else f64OfRat neg (1000 * m) (2 ^ (-e).toNat)
  | .inf neg => .inf neg
  | .nan => .nan

/-- The Python exceptions the conversion block can raise. -/
inductive PyExc where
  | valueError
  | typeError
  | overflowError
  deriving Repr, DecidableEq

/-- Python `int(x)` on a binary64 value: truncation toward zero; raises
`OverflowError` on an infinity and `ValueError` on NaN. -/
def intOfF64 : F64 → Except PyExc Int
  | .finite neg m e =>
    let n : Nat := if 0 ≤ e then m * 2 ^ e.toNat else m / 2 ^ (-e).toNat
    .ok (if neg then -(n : Int) else (n : Int))
  | .inf _ => .error .overflowError
  | .nan => .error .valueError

/-- The seconds-to-milliseconds conversion block inlined at the top of
`create_project_setting`, `update_project_setting` and `upsert_setting`
(crud/project_setting.py): for the keys `TIMEOUT` and `EXPECT_TIMEOUT` the
value is replaced by `str(int(float(value) * 1000))`; a `ValueError` (or
`TypeError`) anywhere in that expression is caught and the value kept
verbatim, while the `OverflowError` from `int` of an infinity escapes the
handler.  Other keys are stored verbatim. -/
def convert_timeout_value (key value : String) : Except PyExc String :=
  if key = "TIMEOUT" ∨ key = "EXPECT_TIMEOUT" then
    match pyFloat? value with
    | none => .ok value
    | some lit =>
      match intOfF64 (f64Mul1000 (f64OfLit lit)) with
      | .ok ms => .ok (toString ms)
      | .error .valueError => .ok value
      | .error .typeError => .ok value
      | .error .overflowError => .error .overflowError
  else .ok value

/-- Row of the `project_settings` table. -/
structure SettingRow where
  id : String
  project_id : String
  key : String
  value : String
  deriving Repr, DecidableEq

/-- `create_project_setting` (crud/project_setting.py lines 32-54).  The pair
is the table after the call and the result; an uncaught exception from the
conversion block leaves the table unchanged. -/
def create_project_setting (db : List SettingRow) (newId project_id key value : String) :
    List SettingRow × Except PyExc SettingRow :=
  match convert_timeout_value key value with
  | .error e => (db, .error e)
  | .ok pv =>
    let row : SettingRow := ⟨newId, project_id, key, pv⟩
    (db ++ [row], .ok row)

/-- In-place update of the first row matched by `p` (the SQLAlchemy identity
of a row fetched with `.first()`). -/
def updateFirstRow : List SettingRow → (SettingRow → Bool) → SettingRow → List SettingRow
  | [], _, _ => []
  | r :: rest, p, row' => if p r then row' :: rest else r :: updateFirstRow rest p row'

/-- `update_project_setting` (crud/project_setting.py lines 57-85), restricted
to a value-only update.  The conversion is keyed on the persisted row's key,
and an uncaught exception from it leaves the table unchanged. -/
def update_project_setting (db : List SettingRow) (setting_id : String)
    (newValue : Option String) : List SettingRow × Except PyExc (Option SettingRow) :=
  match db.find? (fun r => r.id == setting_id) with
  | none => (db, .ok none)
  | some row =>
    match newValue with
    | none => (db, .ok (some row))
    | some v =>
      match convert_timeout_value row.key v with
      | .error e => (db, .error e)
      | .ok pv =>
        let row' := { row with value := pv }
        (updateFirstRow db (fun r => r.id == setting_id) row', .ok (some row'))

/-- `upsert_setting` (crud/project_setting.py lines 88-134): the conversion
runs before the lookup, so an uncaught exception leaves the table
unchanged in both branches. -/
def upsert_setting (db : List SettingRow) (newId project_id key value : String) :
    List SettingRow × Except PyExc SettingRow :=
  match convert_timeout_value key value with
  | .error e => (db, .error e)
  | .ok pv =>
    match db.find? (fun r => r.project_id == project_id && r.key == key) with
    | some existing =>
      let row' := { existing with value := pv }
      (updateFirstRow db (fun r => r.project_id == project_id && r.key == key) row', .ok row')
    | none =>
      let row : SettingRow := ⟨newId, project_id, key, pv⟩
      (db ++ [row], .ok row)

/-- Python `str.replace(pat, rep)` on character lists: all non-overlapping
occurrences, left to right.  (Only called with non-empty patterns.) -/
def replaceAll (pat rep : List Char) : List Char → List Char
  | [] => []
  | c :: rest =>
    if h : pat ≠ [] ∧ pat.isPrefixOf (c :: rest) then
      rep ++ replaceAll pat rep ((c :: rest).drop pat.length)
    else c :: replaceAll pat rep rest
termination_by l => l.length
decreasing_by
  · simp only [List.length_drop, List.length_cons]
    have : 1 ≤ pat.length := List.length_pos.mpr h.1
    omega
  · simp

/-- The placeholder-substitution loop of `_regenerate_playwright_config`
(crud/project_setting.py lines 177-181): each setting's stored value replaces
its double-brace placeholder verbatim. -/
def renderConfig (template : String) (settings : List (String × String)) : String :=
  settings.foldl
    (fun acc kv =>
      String.mk (replaceAll ("\x7b\x7b" ++ kv.1 ++ "\x7d\x7d").data kv.2.data acc.data))
    template

/-- Replacing a non-empty pattern inside exactly itself yields the replacement. -/
theorem replaceAll_self (pat rep : List Char) (h : pat ≠ []) :
    replaceAll pat rep pat = rep := by
  match pat, h with
  | c :: rest, _ =>
    rw [replaceAll]
    rw [dif_pos ⟨by simp, List.isPrefixOf_iff_prefix.mpr (List.prefix_refl _)⟩]
    simp [replaceAll]

/-- Claim C9 counterexample: the stored milliseconds value is
`str(int(float(value) * 1000))` computed in binary64, not the exact
`value * 1000` — `TIMEOUT = "1.005"` stores `"1004"` (the product
`float('1.005') * 1000` is `1004.9999999999999`) and `"8.165"` stores
`"8164"`, not the exact `"1005"` and `"8165"`; and `"inf"`, which `float`
does parse, makes `int` raise an uncaught `OverflowError`, so the write
fails and no row is stored at all. -/
theorem timeout_conversion_not_exact :
    convert_timeout_value "TIMEOUT" "1.005" = .ok "1004" ∧
    convert_timeout_value "TIMEOUT" "8.165" = .ok "8164" ∧
    create_project_setting [] "id1" "p1" "TIMEOUT" "inf" = ([], .error .overflowError) :=
  ⟨rfl, rfl, rfl⟩

/-- Claim C9 (amended): every project-setting write with key `TIMEOUT` or
`EXPECT_TIMEOUT` and a value accepted by Python `float` stores
`str(int(float(value) * 1000))` computed in binary64 — seconds converted to
milliseconds at write time, up to binary64 rounding of `float(value)` and of
the product (so the stored integer can fall just below the exact value·1000;
see `timeout_conversion_not_exact`); other keys and unparsable values
(a caught `ValueError`, including NaN inputs) are stored verbatim; an
infinite value makes the write raise an uncaught `OverflowError`, leaving
the table unchanged; and nothing is converted at config render time: the
stored string is substituted verbatim into the template. -/
theorem setting_timeout_conversion_spec :
    (∀ key value, key ≠ "TIMEOUT" → key ≠ "EXPECT_TIMEOUT" →
      convert_timeout_value key value = .ok value) ∧
    (∀ key value, pyFloat? value = none →
      convert_timeout_value key value = .ok value) ∧
    (convert_timeout_value "TIMEOUT" "2.5" = .ok "2500" ∧
     convert_timeout_value "EXPECT_TIMEOUT" "1e3" = .ok "1000000" ∧
     convert_timeout_value "TIMEOUT" " 2.5 " = .ok "2500" ∧
     convert_timeout_value "TIMEOUT" "nan" = .ok "nan" ∧
     convert_timeout_value "TIMEOUT" "inf" = .error .overflowError) ∧
    (∀ db newId pid key value pv, convert_timeout_value key value = .ok pv →
      create_project_setting db newId pid key value =
        (db ++ [⟨newId, pid, key, pv⟩], .ok ⟨newId, pid, key, pv⟩)) ∧
    (∀ db newId pid key value e, convert_timeout_value key value = .error e →
      create_project_setting db newId pid key value = (db, .error e) ∧
      upsert_setting db newId pid key value = (db, .error e)) ∧
    (∀ db newId pid key value pv, convert_timeout_value key value = .ok pv →
      ∃ row, (upsert_setting db newId pid key value).2 = .ok row ∧ row.value = pv) ∧
    (∀ db sid v row pv, db.find? (fun r => r.id == sid) = some row →
      convert_timeout_value row.key v = .ok pv →
      (update_project_setting db sid (some v)).2 = .ok (some { row with value := pv })) ∧
    (∀ k v : String,
      renderConfig ("\x7b\x7b" ++ k ++ "\x7d\x7d") [(k, v)] = v) := by
  refine ⟨?_, ?_, ⟨rfl, rfl, rfl, rfl, rfl⟩, ?_, ?_, ?_, ?_, ?_⟩
  · intro key value h1 h2
    simp [convert_timeout_value, h1, h2]
  · intro key value h
    by_cases hkey : key = "TIMEOUT" ∨ key = "EXPECT_TIMEOUT"
    · simp [convert_timeout_value, hkey, h]
    · simp [convert_timeout_value, hkey]
  · intro db newId pid key value pv h
    simp [create_project_setting, h]
  · intro db newId pid key value e h
    constructor
    · simp [create_project_setting, h]
    · simp [upsert_setting, h]
  · intro db newId pid key value pv h
    simp only [upsert_setting, h]
    cases db.find? (fun r => r.project_id == pid && r.key == key) with
    | none => exact ⟨_, rfl, rfl⟩
    | some existing => exact ⟨_, rfl, rfl⟩
  · intro db sid v row pv hrow h
    simp [update_project_setting, hrow, h]
  · intro k v
    simp only [renderConfig, List.foldl]
    have : ("\x7b\x7b" ++ k ++ "\x7d\x7d").data ≠ [] := by
      simp
    rw [replaceAll_self _ _ this]

/-- Witness for `setting_timeout_conversion_spec`: a non-timing key and an
unparsable timeout value are stored verbatim, a parsable timeout write
appends the converted row, an infinite timeout fails the write leaving the
table unchanged, and rendering substitutes the stored string unchanged. -/
theorem setting_timeout_conversion_spec_witness :
    convert_timeout_value "RETRIES" "2.5" = .ok "2.5" ∧
    convert_timeout_value "TIMEOUT" "fast" = .ok "fast" ∧
    create_project_setting [] "id1" "p1" "TIMEOUT" "2.5" =
      ([⟨"id1", "p1", "TIMEOUT", "2500"⟩], .ok ⟨"id1", "p1", "TIMEOUT", "2500"⟩) ∧
    create_project_setting [] "id1" "p1" "TIMEOUT" "inf" = ([], .error .overflowError) ∧
    renderConfig ("\x7b\x7b" ++ "TIMEOUT" ++ "\x7d\x7d") [("TIMEOUT", "2500")] = "2500" := by
  refine ⟨?_, ?_, ?_, ?_, ?_⟩
  · exact setting_timeout_conversion_spec.1 "RETRIES" "2.5" (by decide) (by decide)
  · exact setting_timeout_conversion_spec.2.1 "TIMEOUT" "fast" (by rfl)
  · exact setting_timeout_conversion_spec.2.2.2.1 [] "id1" "p1" "TIMEOUT" "2.5" "2500" (by rfl)
  · exact (setting_timeout_conversion_spec.2.2.2.2.1 [] "id1" "p1" "TIMEOUT" "inf"
      PyExc.overflowError (by rfl)).1
  · exact setting_timeout_conversion_spec.2.2.2.2.2.2.2 "TIMEOUT" "2500"

/-! ## Reordering a single step
(backend/app/api/endpoints/steps.py, `reorder_test_case_steps` lines 270-316
and `reorder_fixture_steps` lines 337-383; the two bodies are identical) -/

/-- The projection of a step row used by the reorder endpoints. -/
structure RStep where
  id : String
  order : Int
  deriving Repr, DecidableEq

/-- Body shared verbatim by `reorder_test_case_steps` and
`reorder_fixture_steps`: find the step, validate `1 ≤ new_order ≤ len(steps)`
(HTTP 400 otherwise), return early when already at the target, otherwise shift
every step strictly between the current and the target position by one and
put the moved step at `new_order`, then commit.  The Python iteration order
(sorted by current order) is irrelevant: each row's new order depends only on
its own fields, so the loop is a `map`. -/
def reorder_steps (steps : List RStep) (step_id : String) (new_order : Int) :
    Except String Unit × List RStep :=
  match steps.find? (fun s => s.id == step_id) with
  | none => (.error "Step not found", steps)
  | some step_to_move =>
    if new_order < 1 ∨ (steps.length : Int) < new_order then
      (.error ("new_order must be between 1 and " ++ toString steps.length), steps)
    else if step_to_move.order == new_order then (.ok (), steps)
    else
      let c := step_to_move.order
      (.ok (), steps.map (fun s =>
        if s.id == step_id then { s with order := new_order }
        else if c < new_order then
          if c < s.order ∧ s.order ≤ new_order then { s with order := s.order - 1 } else s
        else
          if new_order ≤ s.order ∧ s.order < c then { s with order := s.order + 1 } else s))

/-- `reorder_test_case_steps` after the parent-ownership check: `steps` is the
test case's step list. -/
def reorder_test_case_steps (steps : List RStep) (step_id : String) (new_order : Int) :
    Except String Unit × List RStep :=
  reorder_steps steps step_id new_order

/-- `reorder_fixture_steps` after the parent-ownership check: `steps` is the
fixture's step list. -/
def reorder_fixture_steps (steps : List RStep) (step_id : String) (new_order : Int) :
    Except String Unit × List RStep :=
  reorder_steps steps step_id new_order

/-- The permutation of order values effected by moving position `c` to
position `t`. -/
def reorderShift (c t x : Int) : Int :=
  if x = c then t
  else if c < t ∧ c < x ∧ x ≤ t then x - 1
  else if t < c ∧ t ≤ x ∧ x < c then x + 1
  else x

/-- The dense order range `[1, …, n]` as integers. -/
def intRange (n : Nat) : List Int :=
  List.map (fun (i : Nat) => (i : Int)) (List.range' 1 n)

theorem mem_intRange {y : Int} {n : Nat} : y ∈ intRange n ↔ 1 ≤ y ∧ y ≤ (n : Int) := by
  simp only [intRange, List.mem_map, List.mem_range']
  constructor
  · rintro ⟨x, ⟨i, hi, rfl⟩, rfl⟩
    omega
  · intro hy
    refine ⟨y.toNat, ⟨y.toNat - 1, by omega, by omega⟩, by omega⟩

theorem nodup_intRange (n : Nat) : (intRange n).Nodup :=
  (List.nodup_range' _ _).map_on (fun x _ y _ h => by exact_mod_cast h)

/-- `reorderShift c t` permutes `[1, …, n]` when `c` and `t` lie in it. -/
theorem perm_map_reorderShift (n : Nat) (c t : Int)
    (hc1 : 1 ≤ c) (hc2 : c ≤ (n : Int)) (ht1 : 1 ≤ t) (ht2 : t ≤ (n : Int)) :
    ((intRange n).map (reorderShift c t)).Perm (intRange n) := by
  have hnd : ((intRange n).map (reorderShift c t)).Nodup := by
    refine (nodup_intRange n).map_on ?_
    intro x hx y hy hxy
    have hxb := mem_intRange.mp hx
    have hyb := mem_intRange.mp hy
    simp only [reorderShift] at hxy
    split_ifs at hxy <;> omega
  refine (List.perm_ext_iff_of_nodup hnd (nodup_intRange n)).mpr ?_
  intro a
  constructor
  · intro ha
    obtain ⟨x, hx, rfl⟩ := List.mem_map.mp ha
    have hxb := mem_intRange.mp hx
    refine mem_intRange.mpr ?_
    simp only [reorderShift]
    split_ifs <;> omega
  · intro ha
    have hab := mem_intRange.mp ha
    refine List.mem_map.mpr ⟨reorderShift t c a, ?_, ?_⟩
    · refine mem_intRange.mpr ?_
      simp only [reorderShift]
      split_ifs <;> omega
    · simp only [reorderShift]
      split_ifs <;> omega

/-- Claim C7: a successful single-step reorder (for a test case's or a
fixture's steps — the two endpoints share the same body) maps dense orders
`1..N` to a permutation of `1..N`, with the moved step at the requested
position; a requested position outside `1..N` is rejected with HTTP 400 and
leaves every order unchanged. -/
theorem reorder_steps_density_spec (steps : List RStep) (sid : String) (t : Int)
    (hids : (steps.map (fun s => s.id)).Nodup)
    (hdense : (steps.map (fun s => s.order)).Perm (intRange steps.length)) :
    (∀ stm, steps.find? (fun s => s.id == sid) = some stm →
      1 ≤ t → t ≤ (steps.length : Int) →
      ∃ steps', reorder_test_case_steps steps sid t = (.ok (), steps') ∧
        (steps'.map (fun s => s.order)).Perm (intRange steps.length) ∧
        ∃ stm', steps'.find? (fun s => s.id == sid) = some stm' ∧ stm'.order = t) ∧
    (∀ stm, steps.find? (fun s => s.id == sid) = some stm →
      (t < 1 ∨ (steps.length : Int) < t) →
      reorder_test_case_steps steps sid t =
        (.error ("new_order must be between 1 and " ++ toString steps.length), steps)) ∧
    (∀ l i o, reorder_fixture_steps l i o = reorder_test_case_steps l i o) := by
  refine ⟨?_, ?_, fun _ _ _ => rfl⟩
  · intro stm hfind h1 h2
    have hrange : ¬(t < 1 ∨ (steps.length : Int) < t) := by omega
    have hmem : stm ∈ steps := List.mem_of_find?_eq_some hfind
    have hid : stm.id = sid := by
      have := List.find?_some hfind
      simpa using this
    by_cases heq : stm.order = t
    · refine ⟨steps, ?_, hdense, stm, hfind, heq⟩
      simp [reorder_test_case_steps, reorder_steps, hfind, hrange, heq]
    · have hbne : (stm.order == t) = false := by simp [heq]
      set c := stm.order with hc
      set F : RStep → RStep := fun s =>
        if s.id == sid then { s with order := t }
        else if c < t then
          if c < s.order ∧ s.order ≤ t then { s with order := s.order - 1 } else s
        else
          if t ≤ s.order ∧ s.order < c then { s with order := s.order + 1 } else s
        with hF
      have hrun : reorder_test_case_steps steps sid t = (.ok (), steps.map F) := by
        simp only [reorder_test_case_steps, reorder_steps, hfind, hrange, hbne]
        simp [hF]
      have hordnd : (steps.map (fun s => s.order)).Nodup :=
        hdense.nodup_iff.mpr (nodup_intRange _)
      have hcmem : 1 ≤ c ∧ c ≤ (steps.length : Int) := by
        have : c ∈ intRange steps.length :=
          hdense.mem_iff.mp (List.mem_map.mpr ⟨stm, hmem, rfl⟩)
        exact mem_intRange.mp this
      have hFid : ∀ s, (F s).id = s.id := by
        intro s
        simp only [hF]
        split_ifs <;> rfl
      have hFord : ∀ s ∈ steps, (F s).order = reorderShift c t s.order := by
        intro s hs
        by_cases hsid : s.id = sid
        · have : s = stm := List.inj_on_of_nodup_map hids hs hmem (hsid.trans hid.symm)
          subst this
          simp only [hF, reorderShift, hsid]
          simp
        · have hso : s.order ≠ c := by
            intro hco
            have : s = stm := List.inj_on_of_nodup_map hordnd hs hmem hco
            exact hsid (this ▸ hid)
          have hbid : (s.id == sid) = false := by simp [hsid]
          simp only [hF, reorderShift, hbid]
          split_ifs <;> (try simp_all) <;> omega
      have hmapord : (steps.map F).map (fun s => s.order) =
          (steps.map (fun s => s.order)).map (reorderShift c t) := by
        rw [List.map_map, List.map_map]
        exact List.map_congr_left (fun s hs => hFord s hs)
      refine ⟨steps.map F, hrun, ?_, ?_⟩
      · rw [hmapord]
        exact (hdense.map _).trans (perm_map_reorderShift _ c t hcmem.1 hcmem.2 h1 h2)
      · refine ⟨F stm, ?_, ?_⟩
        · rw [List.find?_map]
          have hpeq : ((fun s => s.id == sid) ∘ F) = (fun s : RStep => s.id == sid) := by
            funext s
            simp [Function.comp, hFid]
          rw [hpeq, hfind]
          rfl
        · simp only [hF]
          simp [hid]
  · intro stm hfind hout
    have : (t < 1 ∨ (steps.length : Int) < t) := hout
    simp [reorder_test_case_steps, reorder_steps, hfind, this]

/-- Witness for `reorder_steps_density_spec`: moving step `b` of a dense
3-step list to position 1 keeps the orders a permutation of `[1, 2, 3]` and
puts `b` first; requesting position 5 is rejected and changes nothing. -/
theorem reorder_steps_density_spec_witness :
    (∃ steps', reorder_test_case_steps [⟨"a", 1⟩, ⟨"b", 2⟩, ⟨"c", 3⟩] "b" 1 =
        (.ok (), steps') ∧
      (steps'.map (fun s => s.order)).Perm (intRange 3) ∧
      ∃ stm', steps'.find? (fun s => s.id == "b") = some stm' ∧ stm'.order = 1) ∧
    reorder_test_case_steps [⟨"a", 1⟩, ⟨"b", 2⟩, ⟨"c", 3⟩] "b" 5 =
      (.error ("new_order must be between 1 and " ++ toString 3), [⟨"a", 1⟩, ⟨"b", 2⟩, ⟨"c", 3⟩]) := by
  have h := reorder_steps_density_spec [⟨"a", 1⟩, ⟨"b", 2⟩, ⟨"c", 3⟩] "b" 1
    (by decide) (by decide)
  have h5 := reorder_steps_density_spec [⟨"a", 1⟩, ⟨"b", 2⟩, ⟨"c", 3⟩] "b" 5
    (by decide) (by decide)
  constructor
  · exact h.1 ⟨"b", 2⟩ (by decide) (by decide) (by decide)
  · exact h5.2.1 ⟨"b", 2⟩ (by decide) (by decide)

/-! ## Name normalisation
(backend/app/services/playwright_project.py `clean_folder_name` lines 219-248,
backend/app/services/playwright_fixture.py `_clean_export_name` lines 64-89).
Character classes follow the ASCII reading of the Python regexes. -/

/-- The class `[\s_]` of `re.sub(r'[\s_]+', '-', …)`. -/
def isWsU (c : Char) : Bool :=
  pyWs c || c.toNat == 95

/-- The class `[a-z0-9-]` kept by `re.sub(r'[^a-z0-9\-]', '', …)`
(97-122 = a-z, 48-57 = 0-9, 45 = hyphen). -/
def allowedFolderChar (c : Char) : Bool :=
  (97 ≤ c.toNat && c.toNat ≤ 122) || (48 ≤ c.toNat && c.toNat ≤ 57) || c.toNat == 45

/-- `re.sub(r'[\s_]+', '-', l)`: each maximal run of whitespace/underscore
becomes a single hyphen.  The flag records being inside a run. -/
def subWsAux : Bool → List Char → List Char
  | _, [] => []
  | inRun, c :: cs =>
    if isWsU c then
      if inRun then subWsAux true cs else '-' :: subWsAux true cs
    else c :: subWsAux false cs

def subWsRuns (l : List Char) : List Char :=
  subWsAux false l

/-- `re.sub(r'-+', '-', l)`: collapse hyphen runs.  The flag records a
pending hyphen run. -/
def collapseAux : Bool → List Char → List Char
  | _, [] => []
  | prevH, c :: cs =>
    if c = '-' then
      if prevH then collapseAux true cs else '-' :: collapseAux true cs
    else c :: collapseAux false cs

def collapseHyphens (l : List Char) : List Char :=
  collapseAux false l

def isHy (c : Char) : Bool := c == '-'

/-- Python `str.strip('-')`. -/
def stripHyphens (l : List Char) : List Char :=
  ((l.dropWhile isHy).reverse.dropWhile isHy).reverse

/-- The five transformation steps of `clean_folder_name` before the
empty-result fallback. -/
def folderPipeline (l : List Char) : List Char :=
  stripHyphens (collapseHyphens ((subWsRuns (l.map Char.toLower)).filter allowedFolderChar))

/-- `PlaywrightProjectManager.clean_folder_name`. -/
def clean_folder_name (name : String) : String :=
  let cleaned := folderPipeline name.data
  if cleaned.isEmpty then "project" else String.mk cleaned

/-- The class `[a-zA-Z0-9\s]` kept by `re.sub(r'[^a-zA-Z0-9\s]', '', …)`. -/
def keepExportChar (c : Char) : Bool :=
  (97 ≤ c.toNat && c.toNat ≤ 122) || (65 ≤ c.toNat && c.toNat ≤ 90) ||
    (48 ≤ c.toNat && c.toNat ≤ 57) || pyWs c

/-- Python `str.split()`: split on whitespace runs, dropping empty pieces.
`acc` holds the current word reversed. -/
def wordsAux (acc : List Char) : List Char → List (List Char)
  | [] => if acc.isEmpty then [] else [acc.reverse]
  | c :: cs =>
    if pyWs c then
      if acc.isEmpty then wordsAux [] cs else acc.reverse :: wordsAux [] cs
    else wordsAux (c :: acc) cs

def pySplit (l : List Char) : List (List Char) :=
  wordsAux [] l

/-- Python `str.capitalize()`: first character upper-cased, the rest
lower-cased. -/
def pyCapitalize : List Char → List Char
  | [] => []
  | c :: cs => Char.toUpper c :: cs.map Char.toLower

/-- `PlaywrightFixtureGenerator._clean_export_name`.  (The `camel = []`
branch is unreachable — split words are never empty — and mirrors Python's
indexing never failing there.) -/
def _clean_export_name (name : String) : String :=
  let cleaned := name.data.filter keepExportChar
  match pySplit cleaned with
  | [] => "fixture"
  | w :: ws =>
    let camel := w.map Char.toLower ++ (ws.map pyCapitalize).flatten
    match camel with
    | [] => "fixture"
    | c0 :: _ =>
      if c0.isAlpha then String.mk camel
      else String.mk ("fixture".data ++ pyCapitalize camel)

/-- No two adjacent hyphens. -/
def NoAdjHy (l : List Char) : Prop :=
  l.Chain' (fun a b => ¬(a = '-' ∧ b = '-'))

theorem allowed_toLower_fixed {c : Char} (h : allowedFolderChar c = true) :
    c.toLower = c := by
  have hn : ((97 ≤ c.toNat ∧ c.toNat ≤ 122) ∨ (48 ≤ c.toNat ∧ c.toNat ≤ 57)) ∨ c.toNat = 45 := by
    simpa [allowedFolderChar, Bool.or_eq_true, Bool.and_eq_true, decide_eq_true_eq,
      Nat.beq_eq_true_eq] using h
  rw [Char.toLower, if_neg (by omega)]

theorem allowed_not_wsU {c : Char} (h : allowedFolderChar c = true) : isWsU c = false := by
  have hn : ((97 ≤ c.toNat ∧ c.toNat ≤ 122) ∨ (48 ≤ c.toNat ∧ c.toNat ≤ 57)) ∨ c.toNat = 45 := by
    simpa [allowedFolderChar, Bool.or_eq_true, Bool.and_eq_true, decide_eq_true_eq,
      Nat.beq_eq_true_eq] using h
  have : ¬((((9 ≤ c.toNat ∧ c.toNat ≤ 13) ∨ c.toNat = 32)) ∨ c.toNat = 95) := by omega
  simpa [isWsU, pyWs, Bool.or_eq_true, Bool.and_eq_true, decide_eq_true_eq,
    Nat.beq_eq_true_eq, not_or] using this

theorem subWsAux_eq_self (l : List Char) : ∀ b, (∀ c ∈ l, isWsU c = false) →
    subWsAux b l = l := by
  induction l with
  | nil => intro b _; rfl
  | cons c cs ih =>
    intro b h
    have hc : isWsU c = false := h c (by simp)
    simp only [subWsAux, hc, Bool.false_eq_true, if_false]
    exact congrArg (c :: ·) (ih false fun x hx => h x (List.mem_cons_of_mem _ hx))

theorem mem_subWsAux (l : List Char) : ∀ b x, x ∈ subWsAux b l → x = '-' ∨ x ∈ l := by
  induction l with
  | nil => intro b x h; cases h
  | cons c cs ih =>
    intro b x h
    simp only [subWsAux] at h
    by_cases hc : isWsU c = true
    · simp only [hc, if_true] at h
      cases b with
      | true =>
        rw [if_pos rfl] at h
        rcases ih true x h with h' | h'
        · exact Or.inl h'
        · exact Or.inr (List.mem_cons_of_mem _ h')
      | false =>
        rw [if_neg (by simp)] at h
        rcases List.mem_cons.mp h with rfl | h'
        · exact Or.inl rfl
        · rcases ih true x h' with h'' | h''
          · exact Or.inl h''
          · exact Or.inr (List.mem_cons_of_mem _ h'')
    · simp only [hc, if_false] at h
      rcases List.mem_cons.mp h with rfl | h'
      · exact Or.inr (List.mem_cons_self _ _)
      · rcases ih false x h' with h'' | h''
        · exact Or.inl h''
        · exact Or.inr (List.mem_cons_of_mem _ h'')

theorem collapseAux_true_head (l : List Char) :
    ∀ a, (collapseAux true l).head? = some a → a ≠ '-' := by
  induction l with
  | nil => intro a h; cases h
  | cons c cs ih =>
    intro a h
    by_cases hc : c = '-'
    · subst hc
      simp only [collapseAux, if_pos rfl, if_true] at h
      exact ih a h
    · simp only [collapseAux, if_neg hc] at h
      cases h
      exact hc

theorem collapseAux_chain (l : List Char) : ∀ b, NoAdjHy (collapseAux b l) := by
  induction l with
  | nil => intro b; exact List.chain'_nil
  | cons c cs ih =>
    intro b
    by_cases hc : c = '-'
    · subst hc
      cases b with
      | true =>
        simp only [collapseAux, if_pos rfl, if_true]
        exact ih true
      | false =>
        simp only [collapseAux, if_pos rfl, if_false]
        refine List.chain'_cons'.mpr ⟨?_, ih true⟩
        intro y hy
        have := collapseAux_true_head cs y hy
        exact fun h => this h.2
    · simp only [collapseAux, if_neg hc]
      refine List.chain'_cons'.mpr ⟨?_, ih false⟩
      intro y _
      exact fun h => hc h.1

theorem collapseAux_eq_self (l : List Char) : ∀ b, NoAdjHy l →
    (b = true → ∀ a, l.head? = some a → a ≠ '-') → collapseAux b l = l := by
  induction l with
  | nil => intro b _ _; rfl
  | cons c cs ih =>
    intro b hch hb
    by_cases hc : c = '-'
    · subst hc
      cases b with
      | true => exact absurd rfl (hb rfl '-' rfl)
      | false =>
        simp only [collapseAux, if_pos rfl, if_false]
        refine congrArg ('-' :: ·) (ih true (List.chain'_cons'.mp hch).2 ?_)
        intro _ a ha
        have := (List.chain'_cons'.mp hch).1 a ha
        exact fun h' => this ⟨rfl, h'⟩
    · simp only [collapseAux, if_neg hc]
      exact congrArg (c :: ·)
        (ih false (List.chain'_cons'.mp hch).2 (fun h => absurd h (by simp)))

theorem mem_collapseAux (l : List Char) : ∀ b x, x ∈ collapseAux b l → x = '-' ∨ x ∈ l := by
  induction l with
  | nil => intro b x h; cases h
  | cons c cs ih =>
    intro b x h
    by_cases hc : c = '-'
    · subst hc
      cases b with
      | true =>
        simp only [collapseAux, if_pos rfl, if_true] at h
        rcases ih true x h with h' | h'
        · exact Or.inl h'
        · exact Or.inr (List.mem_cons_of_mem _ h')
      | false =>
        simp only [collapseAux, if_pos rfl, if_false] at h
        rcases List.mem_cons.mp h with rfl | h'
        · exact Or.inl rfl
        · rcases ih true x h' with h'' | h''
          · exact Or.inl h''
          · exact Or.inr (List.mem_cons_of_mem _ h'')
    · simp only [collapseAux, if_neg hc] at h
      rcases List.mem_cons.mp h with rfl | h'
      · exact Or.inr (List.mem_cons_self _ _)
      · rcases ih false x h' with h'' | h''
        · exact Or.inl h''
        · exact Or.inr (List.mem_cons_of_mem _ h'')

theorem dropWhile_eq_self_of_head (p : Char → Bool) (l : List Char)
    (h : ∀ a, l.head? = some a → p a = false) : l.dropWhile p = l := by
  cases l with
  | nil => rfl
  | cons c cs =>
    rw [List.dropWhile_cons_of_neg]
    simp [h c rfl]

theorem head?_dropWhile_false (p : Char → Bool) (l : List Char) (a : Char)
    (h : (l.dropWhile p).head? = some a) : p a = false := by
  have := List.head?_dropWhile_not p l
  rw [h] at this
  exact this

theorem prefix_head? {l₁ l₂ : List Char} (h : l₁ <+: l₂) (hne : l₁ ≠ []) :
    l₁.head? = l₂.head? := by
  obtain ⟨t, rfl⟩ := h
  cases l₁ with
  | nil => exact absurd rfl hne
  | cons c cs => rfl

theorem stripHyphens_pre (l : List Char) :
    stripHyphens l <+: l.dropWhile isHy := by
  unfold stripHyphens
  have h2 : ((l.dropWhile isHy).reverse.dropWhile isHy).reverse.reverse <:+
      (l.dropWhile isHy).reverse := by
    simpa using List.dropWhile_suffix isHy
  exact List.reverse_suffix.mp h2

theorem stripHyphens_mid (l : List Char) : stripHyphens l <:+: l :=
  List.IsInfix.trans
    ( List.IsPrefix.isInfix (stripHyphens_pre l))
    ( List.IsSuffix.isInfix (List.dropWhile_suffix isHy))

theorem stripHyphens_head (l : List Char) (a : Char)
    (h : (stripHyphens l).head? = some a) : isHy a = false := by
  have hne : stripHyphens l ≠ [] := by
    intro he
    rw [he] at h
    cases h
  have := prefix_head? (stripHyphens_pre l) hne
  rw [this] at h
  exact head?_dropWhile_false isHy l a h

theorem stripHyphens_getLast (l : List Char) (a : Char)
    (h : (stripHyphens l).getLast? = some a) : isHy a = false := by
  unfold stripHyphens at h
  rw [List.getLast?_reverse] at h
  exact head?_dropWhile_false isHy _ a h

theorem stripHyphens_eq_self (l : List Char)
    (hh : ∀ a, l.head? = some a → isHy a = false)
    (hl : ∀ a, l.getLast? = some a → isHy a = false) : stripHyphens l = l := by
  unfold stripHyphens
  rw [dropWhile_eq_self_of_head _ _ hh]
  rw [dropWhile_eq_self_of_head _ _ ?_]
  · exact List.reverse_reverse l
  · intro a ha
    rw [List.head?_reverse] at ha
    exact hl a ha

/-- Every output of the folder pipeline is a canonical folder name: only
`[a-z0-9-]`, no hyphen runs, no leading or trailing hyphen. -/
theorem folderPipeline_good (l : List Char) :
    (∀ c ∈ folderPipeline l, allowedFolderChar c = true) ∧
    NoAdjHy (folderPipeline l) ∧
    (∀ a, (folderPipeline l).head? = some a → a ≠ '-') ∧
    (∀ a, (folderPipeline l).getLast? = some a → a ≠ '-') := by
  refine ⟨?_, ?_, ?_, ?_⟩
  · intro c hc
    have hcv : c ∈ collapseHyphens ((subWsRuns (l.map Char.toLower)).filter allowedFolderChar) :=
      (stripHyphens_mid _).sublist.subset hc
    rcases mem_collapseAux _ false c hcv with rfl | hcu
    · decide
    · exact List.of_mem_filter hcu
  · exact List.Chain'.infix (collapseAux_chain _ false) (stripHyphens_mid _)
  · intro a ha
    have := stripHyphens_head _ a ha
    simpa [isHy] using this
  · intro a ha
    have := stripHyphens_getLast _ a ha
    simpa [isHy] using this

/-- A canonical folder name is a fixed point of the pipeline. -/
theorem folderPipeline_fixed (l : List Char)
    (hall : ∀ c ∈ l, allowedFolderChar c = true)
    (hch : NoAdjHy l)
    (hh : ∀ a, l.head? = some a → a ≠ '-')
    (hl : ∀ a, l.getLast? = some a → a ≠ '-') :
    folderPipeline l = l := by
  unfold folderPipeline
  have h1 : l.map Char.toLower = l := by
    conv_rhs => rw [← List.map_id l]
    exact List.map_congr_left fun c hc => allowed_toLower_fixed (hall c hc)
  rw [h1, subWsRuns, subWsAux_eq_self _ false (fun c hc => allowed_not_wsU (hall c hc)),
    List.filter_eq_self.mpr hall, collapseHyphens,
    collapseAux_eq_self _ false hch (fun h => absurd h (by simp))]
  refine stripHyphens_eq_self l ?_ ?_
  · intro a ha
    simpa [isHy] using hh a ha
  · intro a ha
    simpa [isHy] using hl a ha

theorem clean_folder_name_idem (s : String) :
    clean_folder_name (clean_folder_name s) = clean_folder_name s := by
  by_cases h : (folderPipeline s.data).isEmpty
  · have hinner : clean_folder_name s = "project" := by
      simp [clean_folder_name, h]
    rw [hinner]
    decide
  · have hinner : clean_folder_name s = String.mk (folderPipeline s.data) := by
      simp [clean_folder_name, h]
    rw [hinner]
    obtain ⟨hall, hch, hh, hl⟩ := folderPipeline_good s.data
    have hfix : folderPipeline (String.mk (folderPipeline s.data)).data =
        folderPipeline s.data :=
      folderPipeline_fixed _ hall hch hh hl
    simp [clean_folder_name, hfix, h]

theorem clean_folder_name_fallback (s : String)
    (h : ∀ c ∈ s.data, allowedFolderChar c.toLower = false ∨ c.toLower = '-') :
    clean_folder_name s = "project" := by
  have hu : ∀ x ∈ (subWsRuns (s.data.map Char.toLower)).filter allowedFolderChar,
      x = '-' := by
    intro x hx
    have hxall : allowedFolderChar x = true := List.of_mem_filter hx
    have hxmem : x ∈ subWsRuns (s.data.map Char.toLower) := List.mem_of_mem_filter hx
    rcases mem_subWsAux _ false x hxmem with rfl | hxl
    · rfl
    · obtain ⟨c, hc, rfl⟩ := List.mem_map.mp hxl
      rcases h c hc with hbad | hdash
      · rw [hxall] at hbad
        cases hbad
      · exact hdash
  have hv : ∀ x ∈ collapseHyphens
      ((subWsRuns (s.data.map Char.toLower)).filter allowedFolderChar), x = '-' := by
    intro x hx
    rcases mem_collapseAux _ false x hx with rfl | hxu
    · rfl
    · exact hu x hxu
  have hstrip : folderPipeline s.data = [] := by
    unfold folderPipeline stripHyphens
    rw [List.dropWhile_eq_nil_iff.mpr ?_]
    · simp
    · intro x hx
      have hx2 : x ∈ collapseHyphens
          ((subWsRuns (s.data.map Char.toLower)).filter allowedFolderChar) :=
        (List.dropWhile_suffix isHy).sublist.subset (List.mem_reverse.mp hx)
      simp [isHy, hv x hx2]
  simp [clean_folder_name, hstrip]

theorem wordsAux_all_ws (l : List Char) (h : ∀ c ∈ l, pyWs c = true) :
    wordsAux [] l = [] := by
  induction l with
  | nil => rfl
  | cons c cs ih =>
    have hc : pyWs c = true := h c (by simp)
    simp only [wordsAux, hc, if_true, List.isEmpty_nil]
    exact ih fun x hx => h x (List.mem_cons_of_mem _ hx)

theorem clean_export_name_fallback (s : String)
    (h : ∀ c ∈ s.data, keepExportChar c = false ∨ pyWs c = true) :
    _clean_export_name s = "fixture" := by
  have hws : ∀ c ∈ s.data.filter keepExportChar, pyWs c = true := by
    intro c hc
    rcases h c (List.mem_of_mem_filter hc) with hbad | hw
    · have := List.of_mem_filter hc
      rw [hbad] at this
      cases this
    · exact hw
  have hsplit : pySplit (s.data.filter keepExportChar) = [] :=
    wordsAux_all_ws _ hws
  simp [_clean_export_name, pySplit] at hsplit ⊢
  rw [hsplit]

/-- Claim C3 counterexample: `_clean_export_name` is not idempotent.  On
`"ab cd"` it yields `"abCd"`, whose normalisation is `"abcd"` — the first
word of a re-application is lower-cased wholesale. -/
theorem clean_export_name_not_idempotent :
    _clean_export_name "ab cd" = "abCd" ∧
    _clean_export_name (_clean_export_name "ab cd") = "abcd" ∧
    _clean_export_name (_clean_export_name "ab cd") ≠ _clean_export_name "ab cd" := by
  refine ⟨by decide, by decide, by decide⟩

/-- Claim C3 (amended): both normalizers are pure functions;
`clean_folder_name` is idempotent for every input and maps the empty string
and strings of only insignificant characters (nothing that lower-cases into
`[a-z0-9]`) to the fallback `"project"`; `_clean_export_name` maps the empty
string and strings with no alphanumeric character to the fallback
`"fixture"`, but it is NOT idempotent in general (see
`clean_export_name_not_idempotent`). -/
theorem name_normalizers_spec :
    (∀ s, clean_folder_name (clean_folder_name s) = clean_folder_name s) ∧
    clean_folder_name "" = "project" ∧
    (∀ s, (∀ c ∈ s.data, allowedFolderChar c.toLower = false ∨ c.toLower = '-') →
      clean_folder_name s = "project") ∧
    _clean_export_name "" = "fixture" ∧
    (∀ s, (∀ c ∈ s.data, keepExportChar c = false ∨ pyWs c = true) →
      _clean_export_name s = "fixture") :=
  ⟨clean_folder_name_idem, by decide, clean_folder_name_fallback,
    by decide, clean_export_name_fallback⟩

/-- Witness for `name_normalizers_spec` at concrete inputs, including the
spec's own example name. -/
theorem name_normalizers_spec_witness :
    clean_folder_name (clean_folder_name "My Cool Project!!") =
      clean_folder_name "My Cool Project!!" ∧
    clean_folder_name "--  !!__" = "project" ∧
    _clean_export_name "!!  ??" = "fixture" := by
  refine ⟨name_normalizers_spec.1 "My Cool Project!!", ?_, ?_⟩
  · exact name_normalizers_spec.2.2.1 "--  !!__" (by decide)
  · exact name_normalizers_spec.2.2.2.2 "!!  ??" (by decide)

/-! ## Fixture index generation
(backend/app/services/playwright_project.py, `FixtureIndexGenerator._render_template`
lines 66-120).  The template file `backend/template/index.fixture.template` is
not part of the sources; its structure is modelled from the spec (§4.6, §6):
surrounding text, an `if fixtures.length` block whose then-branch wraps an
`each fixtures` block (entry text with the three `this.*` placeholders and an
`unless @last` separator) and whose else-branch is the "no fixtures" text. -/

/-- One entry of the fixtures list handed to the index renderer
(keys `importName`, `exportName`, `fileName`; `dict.get(key, '')`). -/
structure IndexFixture where
  importName : Option String
  exportName : Option String
  fileName : Option String
  deriving Repr, DecidableEq

/-- The three placeholder replacements applied to a fragment of the each-block
(the loop body of `_render_template`, lines 97-100). -/
def substFixtureFields (fx : IndexFixture) (s : String) : String :=
  String.mk (replaceAll ("\x7b\x7bthis.fileName\x7d\x7d").data (fx.fileName.getD "").data
    (replaceAll ("\x7b\x7bthis.exportName\x7d\x7d").data (fx.exportName.getD "").data
      (replaceAll ("\x7b\x7bthis.importName\x7d\x7d").data (fx.importName.getD "").data s.data)))

/-- One iteration of the `for i, fixture in enumerate(fixtures)` loop: the
entry around the `unless @last` block, whose separator is kept only when the
entry is not the last (`i < len(fixtures) - 1`). -/
def renderLoopItem (pre sep post : String) (fx : IndexFixture) (isLast : Bool) : String :=
  substFixtureFields fx pre ++
    (if isLast then "" else substFixtureFields fx sep) ++
    substFixtureFields fx post

/-- The whole `each fixtures` loop (`loop_result` accumulation). -/
def renderEach (pre sep post : String) : List IndexFixture → String
  | [] => ""
  | [fx] => renderLoopItem pre sep post fx true
  | fx :: rest => renderLoopItem pre sep post fx false ++ renderEach pre sep post rest

/-- Modelled from the spec: structure of the missing
`index.fixture.template` file (§4.6, §6). -/
structure IndexTemplate where
  before : String
  thenPre : String
  entryPre : String
  entrySep : String
  entryPost : String
  thenPost : String
  elseBranch : String
  after : String
  deriving Repr, DecidableEq

/-- `_render_template` over the structured template: a non-empty fixture list
keeps the then-branch and expands the each-block; an empty list keeps the
else-branch verbatim and drops every each-block.  (The final no-op cleanup of
unresolved markers and blank-line collapsing is omitted; branch texts are
assumed marker-free after substitution.) -/
def renderIndexTemplate (t : IndexTemplate) (fixtures : List IndexFixture) : String :=
  if fixtures.isEmpty then
    t.before ++ t.elseBranch ++ t.after
  else
    t.before ++ t.thenPre ++
      renderEach t.entryPre t.entrySep t.entryPost fixtures ++
      t.thenPost ++ t.after

/-- Spec-side formulation of the loop: one entry per fixture in list order,
with the separator kept for every entry except the last. -/
def specIndexEntries (pre sep post : String) (fixtures : List IndexFixture) : String :=
  (fixtures.dropLast.map (fun fx => renderLoopItem pre sep post fx false)).foldr
      (fun a acc => a ++ acc) "" ++
    (match fixtures.getLast? with
     | some fx => renderLoopItem pre sep post fx true
     | none => "")

theorem renderEach_eq_spec (pre sep post : String) :
    ∀ fxs, renderEach pre sep post fxs = specIndexEntries pre sep post fxs := by
  intro fxs
  induction fxs with
  | nil => rfl
  | cons fx rest ih =>
    cases rest with
    | nil => simp [renderEach, specIndexEntries]
    | cons b bs =>
      show renderLoopItem pre sep post fx false ++ renderEach pre sep post (b :: bs) = _
      rw [ih]
      simp only [specIndexEntries, List.dropLast_cons₂, List.map_cons, List.foldr_cons,
        List.getLast?_cons_cons]
      rw [String.append_assoc]

/-- Claim C6: fixture index generation over an empty fixture list yields
exactly the template's "no fixtures" else-branch; over N fixtures it yields
one import/export entry per fixture in list order, with the `unless @last`
separator kept for every entry except the last, so no trailing separator
follows the final entry. -/
theorem fixture_index_render_spec (t : IndexTemplate) :
    (renderIndexTemplate t [] = t.before ++ t.elseBranch ++ t.after) ∧
    (∀ fxs, fxs ≠ [] →
      renderIndexTemplate t fxs =
        t.before ++ t.thenPre ++
          specIndexEntries t.entryPre t.entrySep t.entryPost fxs ++
          t.thenPost ++ t.after) ∧
    (∀ pre sep post fxs,
      renderEach pre sep post fxs = specIndexEntries pre sep post fxs) := by
  refine ⟨rfl, ?_, fun pre sep post fxs => renderEach_eq_spec pre sep post fxs⟩
  intro fxs hne
  rw [renderIndexTemplate, if_neg (by simpa using hne), renderEach_eq_spec]

/-- Witness for `fixture_index_render_spec` on a two-fixture list: the
rendered entries are the two substituted entry texts with a single separator
between them, and the empty list renders the else-branch. -/
theorem fixture_index_render_spec_witness :
    (renderIndexTemplate ⟨"H|", "T|", "E(", ",", ")", "|P", "NOFIX", "|F"⟩ [] =
      "H|" ++ "NOFIX" ++ "|F") ∧
    (renderIndexTemplate ⟨"H|", "T|", "E(", ",", ")", "|P", "NOFIX", "|F"⟩
        [⟨some "a", some "a", some "a.fixture"⟩, ⟨some "b", some "b", some "b.fixture"⟩] =
      "H|" ++ "T|" ++
        specIndexEntries "E(" "," ")"
          [⟨some "a", some "a", some "a.fixture"⟩, ⟨some "b", some "b", some "b.fixture"⟩] ++
        "|P" ++ "|F") := by
  refine ⟨(fixture_index_render_spec _).1, ?_⟩
  exact (fixture_index_render_spec ⟨"H|", "T|", "E(", ",", ")", "|P", "NOFIX", "|F"⟩).2.1
    [⟨some "a", some "a", some "a.fixture"⟩, ⟨some "b", some "b", some "b.fixture"⟩]
    (by decide)

/-! ## Test-case template rendering: fixture parameters and step bodies
(backend/app/services/playwright_test_case.py,
`PlaywrightTestCaseGenerator._render_template` lines 108-306) -/

/-- One entry of the fixtures list in the render context
(built at lines 409-422; `dict.get` defaults as in the code). -/
structure TFixture where
  name : Option String
  mode : Option String
  exportName : Option String
  deriving Repr, DecidableEq

/-- `any(f.get('mode') == 'extend' for f in fixtures)` (line 123). -/
def has_extend_fixtures (fxs : List TFixture) : Bool :=
  fxs.any (fun f => f.mode == some "extend")

/-- The `fixture_params` accumulation (lines 133-137): export names of the
`extend`-mode fixtures, in encounter order; nothing otherwise. -/
def fixture_params (fxs : List TFixture) : List String :=
  if has_extend_fixtures fxs then
    (fxs.filter (fun f => f.mode == some "extend")).map (fun f => f.exportName.getD "fixture")
  else []

/-- `', ' + ', '.join(fixture_params) if fixture_params else ''` (line 139). -/
def fixture_param_str (fxs : List TFixture) : String :=
  if (fixture_params fxs).isEmpty then ""
  else ", " ++ String.intercalate ", " (fixture_params fxs)

/-- The replacement written over the template's
`page{{#each fixtures}}…{{/each}}` pattern (lines 160-184): the base `page`
context followed by the extend-fixture parameters. -/
def rendered_page_params (fxs : List TFixture) : String :=
  "page" ++ fixture_param_str fxs

/-- One entry of the steps list in the render context (built at lines
394-406; `action` is a non-null DB column, `playwrightCode`/`expected`
default to the empty string). -/
structure TStep where
  action : String
  playwrightCode : String
  expected : String
  disabled : Bool
  referenced_fixture_type : Option String
  referenced_fixture_name : Option String
  deriving Repr, DecidableEq

/-- One iteration of the steps loop (lines 266-288), at 0-based index `i`. -/
def renderStep (i : Nat) (st : TStep) : String :=
  let head := "  // Step " ++ toString (i + 1) ++ ": " ++ st.action ++ "\n"
  if st.disabled then
    head ++ "  /* DISABLED STEP\n" ++
      (if st.playwrightCode ≠ "" then "  " ++ st.playwrightCode ++ "\n" else "") ++
      (if st.expected ≠ "" then "  // Expected: " ++ st.expected ++ "\n" else "") ++
      "  */\n"
  else
    head ++
      (if st.playwrightCode ≠ "" then "  " ++ st.playwrightCode ++ "\n"
       else "  // TODO: Implement this step\n") ++
      (if st.expected ≠ "" then "  // Expected: " ++ st.expected ++ "\n" else "")

/-- The whole steps loop (`steps_content`), with a blank line between
consecutive steps. -/
def renderSteps (i : Nat) : List TStep → String
  | [] => ""
  | [st] => renderStep i st
  | st :: rest => renderStep i st ++ "\n" ++ renderSteps (i + 1) rest

/-- Spec-side formulation of the generated test function's parameter list:
the base `page` context followed by the export names of exactly the
`extend`-mode fixtures, in encounter order. -/
def specParamList (fxs : List TFixture) : List String :=
  "page" :: fxs.filterMap
    (fun f => if f.mode == some "extend" then some (f.exportName.getD "fixture") else none)

theorem filter_map_eq_filterMap {α β : Type} (p : α → Bool) (g : α → β) (l : List α) :
    (l.filter p).map g = l.filterMap (fun a => if p a then some (g a) else none) := by
  induction l with
  | nil => rfl
  | cons a l ih =>
    by_cases h : p a = true <;> simp [h, ih]

/-- The inline step from `tests/test_inline_fixture.py` (empty
`playwrightCode`, bound to the inline fixture `checkUserStatus`). -/
def inlineStepInput : TStep :=
  { action := "Check User Status", playwrightCode := "", expected := "Status verified",
    disabled := false, referenced_fixture_type := some "inline",
    referenced_fixture_name := some "checkUserStatus" }

set_option maxRecDepth 4000 in
/-- Claim C4: extend-mode fixtures are exactly the extra parameters after the
base `page` parameter, in encounter order, and inline-mode fixtures never
appear there (the parameter replacement degenerates to `page` when no fixture
is extend-mode).  However the step bodies never render a step bound to an
inline fixture as an `await <exportName>();` call: with no stored
`playwrightCode` the body is the TODO placeholder — the divergence expected
to fail by `tests/test_inline_fixture.py`. -/
theorem test_case_param_and_inline_render (fxs : List TFixture) :
    ("page" :: fixture_params fxs = specParamList fxs) ∧
    ((∀ f ∈ fxs, f.mode ≠ some "extend") → rendered_page_params fxs = "page") ∧
    (renderStep 1 inlineStepInput =
      "  // Step 2: Check User Status\n" ++
        "  // TODO: Implement this step\n" ++
        "  // Expected: Status verified\n") ∧
    ¬(("await checkUserStatus();").data <:+: (renderStep 1 inlineStepInput).data) := by
  refine ⟨?_, ?_, by decide, by decide⟩
  · by_cases h : has_extend_fixtures fxs = true
    · simp only [specParamList, fixture_params, h, if_true]
      rw [filter_map_eq_filterMap]
    · have h' : has_extend_fixtures fxs = false := by simpa using h
      have hall : ∀ f ∈ fxs, (f.mode == some "extend") = false := by
        intro f hf
        have := List.any_eq_false.mp h' f hf
        simpa using this
      have hnil : fxs.filterMap
          (fun f => if f.mode == some "extend" then some (f.exportName.getD "fixture")
                    else none) = [] := by
        rw [List.filterMap_eq_nil_iff]
        intro f hf
        simp [hall f hf]
      simp only [specParamList, fixture_params, h', Bool.false_eq_true, if_false, hnil]
  · intro hnone
    have h' : has_extend_fixtures fxs = false := by
      simp only [has_extend_fixtures, List.any_eq_false]
      intro f hf
      simpa using hnone f hf
    simp [rendered_page_params, fixture_param_str, fixture_params, h']

/-- Witness for `test_case_param_and_inline_render`: with one extend and one
inline fixture only the extend export name joins the parameter list; with
only inline fixtures the parameter list is bare `page`. -/
theorem test_case_param_and_inline_render_witness :
    ("page" :: fixture_params
        [⟨some "Login As Admin", some "extend", some "loginAsAdmin"⟩,
         ⟨some "Check User Status", some "inline", some "checkUserStatus"⟩] =
      specParamList
        [⟨some "Login As Admin", some "extend", some "loginAsAdmin"⟩,
         ⟨some "Check User Status", some "inline", some "checkUserStatus"⟩]) ∧
    rendered_page_params [⟨some "Check User Status", some "inline", some "checkUserStatus"⟩] =
      "page" := by
  constructor
  · exact (test_case_param_and_inline_render _).1
  · exact (test_case_param_and_inline_render
      [⟨some "Check User Status", some "inline", some "checkUserStatus"⟩]).2.1
      (by decide)

/-! ## Final marker cleanup of the template renderers
(`re.sub(r'{{\s*[^}]+\s*}}', '', rendered)` — the last rewriting step of both
`PlaywrightFixtureGenerator._render_template` (line 215) and
`FixtureIndexGenerator._render_template` (line 117)).
Because `\s` never matches `}`, the pattern matches at a position exactly when
`{{` is followed by at least one non-`}` character and then `}}`; `re.sub`
removes the leftmost match and continues after it, otherwise advances one
character. -/

/-- After the first body character of a candidate marker: consume non-`}`
characters until a `}`, which must be followed by a second `}`; returns the
remainder after the match. -/
def afterBody : List Char → Option (List Char)
  | [] => none
  | [_] => none
  | c :: d :: rest =>
    if c = '}' then (if d = '}' then some rest else none)
    else afterBody (d :: rest)

theorem afterBody_length : ∀ (l r : List Char), afterBody l = some r → r.length + 2 ≤ l.length := by
  intro l
  induction l with
  | nil => intro r h; cases h
  | cons c rest ih =>
    intro r h
    cases rest with
    | nil => simp [afterBody] at h
    | cons d rest2 =>
      by_cases h1 : c = '}'
      · subst h1
        by_cases h2 : d = '}'
        · subst h2
          simp [afterBody] at h
          subst h
          simp only [List.length_cons]
          omega
        · simp [afterBody, h2] at h
      · simp only [afterBody, if_neg h1] at h
        have := ih r h
        simp only [List.length_cons] at *
        omega

/-- Characters following `{{`: fails when the body would be empty, else scans
for the closing `}}`. -/
def markerEnd : List Char → Option (List Char)
  | [] => none
  | c :: rest => if c = '}' then none else afterBody rest

theorem markerEnd_length (l r : List Char) (h : markerEnd l = some r) :
    r.length + 3 ≤ l.length := by
  cases l with
  | nil => cases h
  | cons c rest =>
    by_cases h1 : c = '}'
    · simp [markerEnd, h1] at h
    · simp only [markerEnd, if_neg h1] at h
      have := afterBody_length rest r h
      simp only [List.length_cons]
      omega

/-- The `re.sub` scan as a deterministic left-to-right scanner: at `{{`,
remove through the matching `}}` and continue after it, otherwise advance one
character. -/
def cleanupAux : List Char → List Char
  | [] => []
  | [c] => [c]
  | c₁ :: c₂ :: rest =>
    if c₁ = '{' ∧ c₂ = '{' then
      match h : markerEnd rest with
      | some rest2 => cleanupAux rest2
      | none => c₁ :: cleanupAux (c₂ :: rest)
    else c₁ :: cleanupAux (c₂ :: rest)
termination_by l => l.length
decreasing_by
  · have := markerEnd_length rest rest2 h
    simp only [List.length_cons]
    omega
  · simp only [List.length_cons]
    omega
  · simp only [List.length_cons]
    omega

/-- The marker-cleanup pass `re.sub(r'{{\s*[^}]+\s*}}', '', s)`. -/
def cleanup (s : String) : String :=
  String.mk (cleanupAux s.data)

theorem cleanupAux_match_some (c₁ c₂ : Char) (rest rest2 : List Char)
    (hc : c₁ = '{' ∧ c₂ = '{') (hm : markerEnd rest = some rest2) :
    cleanupAux (c₁ :: c₂ :: rest) = cleanupAux rest2 := by
  simp only [cleanupAux, if_pos hc]
  split
  · rename_i r2 heq
    rw [hm] at heq
    injection heq with heq2
    rw [heq2]
  · rename_i heq
    rw [hm] at heq
    cases heq

theorem cleanupAux_match_none (c₁ c₂ : Char) (rest : List Char)
    (hm : markerEnd rest = none) :
    cleanupAux (c₁ :: c₂ :: rest) = c₁ :: cleanupAux (c₂ :: rest) := by
  by_cases hc : c₁ = '{' ∧ c₂ = '{'
  · simp only [cleanupAux, if_pos hc]
    split
    · rename_i r2 heq
      rw [hm] at heq
      cases heq
    · rfl
  · simp only [cleanupAux, if_neg hc]

theorem cleanupAux_no_marker (c₁ c₂ : Char) (rest : List Char)
    (hc : ¬(c₁ = '{' ∧ c₂ = '{')) :
    cleanupAux (c₁ :: c₂ :: rest) = c₁ :: cleanupAux (c₂ :: rest) := by
  simp only [cleanupAux, if_neg hc]

/-- The cleanup never grows its input (and, being a total function, the
renderer's final pass cannot raise). -/
theorem cleanupAux_length (l : List Char) : (cleanupAux l).length ≤ l.length := by
  induction l using cleanupAux.induct with
  | case1 => simp [cleanupAux]
  | case2 c => simp [cleanupAux]
  | case3 c₁ c₂ rest h rest2 hm ih =>
    rw [cleanupAux_match_some c₁ c₂ rest rest2 h hm]
    have := markerEnd_length rest rest2 hm
    simp only [List.length_cons]
    omega
  | case4 c₁ c₂ rest h hm ih =>
    rw [cleanupAux_match_none c₁ c₂ rest hm]
    simp only [List.length_cons] at *
    omega
  | case5 c₁ c₂ rest h ih =>
    rw [cleanupAux_no_marker c₁ c₂ rest h]
    simp only [List.length_cons] at *
    omega

theorem afterBody_closes : ∀ (b r : List Char), (∀ c ∈ b, c ≠ '}') →
    afterBody (b ++ '}' :: '}' :: r) = some r := by
  intro b
  induction b with
  | nil =>
    intro r _
    simp [afterBody]
  | cons d b' ih =>
    intro r h
    have hd : d ≠ '}' := h d (by simp)
    cases b' with
    | nil => simp [afterBody, hd]
    | cons e b'' =>
      simp only [List.cons_append, afterBody, if_neg hd]
      have := ih r (fun c hc => h c (List.mem_cons_of_mem _ hc))
      simpa using this

theorem markerEnd_closes (b r : List Char) (hne : b ≠ []) (h : ∀ c ∈ b, c ≠ '}') :
    markerEnd (b ++ '}' :: '}' :: r) = some r := by
  cases b with
  | nil => exact absurd rfl hne
  | cons c b' =>
    have hc : c ≠ '}' := h c (by simp)
    simp only [List.cons_append, markerEnd, if_neg hc]
    exact afterBody_closes b' r (fun x hx => h x (List.mem_cons_of_mem _ hx))

/-- A well-formed marker — non-empty body free of close braces — is stripped
entirely. -/
theorem cleanup_marker (body : String) (hne : body ≠ "") (h : ∀ c ∈ body.data, c ≠ '}') :
    cleanup ("\x7b\x7b" ++ body ++ "\x7d\x7d") = "" := by
  obtain ⟨bd⟩ := body
  have hb : bd ≠ [] := by
    intro hl
    subst hl
    exact hne rfl
  have hm := markerEnd_closes bd [] hb h
  have hdata : (("\x7b\x7b" : String) ++ ⟨bd⟩ ++ "\x7d\x7d").data =
      '{' :: '{' :: (bd ++ '}' :: '}' :: []) := by
    simp [String.data_append]
  rw [cleanup, hdata, cleanupAux_match_some _ _ _ [] ⟨rfl, rfl⟩ hm]
  simp [cleanupAux]

/-- Claim C8 counterexample: the cleanup pattern `{{\s*[^}]+\s*}}` needs a
non-empty body, so the double-brace marker `{{}}` survives the final cleanup
verbatim — the rendered output still contains double-brace markers. -/
theorem cleanup_leaves_empty_marker :
    cleanup "\x7b\x7b\x7d\x7d" = "\x7b\x7b\x7d\x7d" ∧
    ("\x7b\x7b\x7d\x7d" : String) ≠ "" := by
  constructor
  · show String.mk (cleanupAux ['\x7b', '\x7b', '\x7d', '\x7d']) = "\x7b\x7b\x7d\x7d"
    simp [cleanupAux, markerEnd, afterBody]
  · decide

/-- Claim C8 (amended): the final cleanup pass of both renderers is a total
function (so rendering never raises there) whose output never exceeds its
input, and it strips every well-formed marker — `{{` + non-empty `}`-free
body + `}}` — entirely; but markers with empty bodies (e.g. `{{}}`, see
`cleanup_leaves_empty_marker`) or unbalanced braces survive, so the output is
not guaranteed free of double-brace sequences. -/
theorem template_cleanup_spec :
    (∀ s : String, (cleanup s).length ≤ s.length) ∧
    (∀ body : String, body ≠ "" → (∀ c ∈ body.data, c ≠ '}') →
      cleanup ("\x7b\x7b" ++ body ++ "\x7d\x7d") = "") :=
  ⟨fun s => by simpa [cleanup] using cleanupAux_length s.data, cleanup_marker⟩

/-- Witness for `template_cleanup_spec`: a plain variable marker is removed
entirely and cleanup never grows a concrete string. -/
theorem template_cleanup_spec_witness :
    cleanup ("\x7b\x7b" ++ "name" ++ "\x7d\x7d") = "" ∧
    (cleanup "abc").length ≤ ("abc" : String).length := by
  constructor
  · exact template_cleanup_spec.2 "name" (by decide) (by decide)
  · exact template_cleanup_spec.1 "abc"
